import Mathlib

/-!
Verification of the CYOA diamond-branching generation engine.

The definitions below are a shallow embedding of the core of the repository:
`packages/core/src/cyoa/state.ts` (data model, `calculateDiamondShape`,
`generateCYOASceneId`, `CYOA_CONSTANTS`) and the orchestrator
(`CYOAOrchestrator.run` / `generateLevel` / `calculateIncomingScenes` /
`generateScene` / `connectDecisions` / `validatePaths`) together with the
editor agent's decision type.  JavaScript numbers are read as exact
arithmetic (`Nat`/`Int`, with `Math.ceil`/`Math.floor` of a real quotient
rendered as exact ceiling/floor division): on every input the engine can
actually produce (level counts are at most 6 for every valid configuration,
proved below) the IEEE-double computations of the source coincide with the
exact ones, which was checked exhaustively over that range.  The external
LLM collaborators (generation, critic) and `Math.random()` are modelled as
oracles that the theorems quantify over.
-/

namespace CYOA

/-- Diamond structure configuration (`DiamondConfigSchema` in `state.ts`).
`words_per_scene` only feeds prompt text and is omitted. -/
structure DiamondConfig where
  max_levels : Nat
  max_width : Nat
  min_endings : Nat
  max_endings : Nat
  decisions_per_scene : Nat
deriving DecidableEq, Repr

/-- The bounds `DiamondConfigSchema` imposes: `max_levels` 3–6, `max_width`
2–6, `min_endings` 2–4, `max_endings` 3–8. -/
def DiamondConfig.Valid (c : DiamondConfig) : Prop :=
  3 ≤ c.max_levels ∧ c.max_levels ≤ 6 ∧ 2 ≤ c.max_width ∧ c.max_width ≤ 6 ∧
  2 ≤ c.min_endings ∧ c.min_endings ≤ 4 ∧ 3 ≤ c.max_endings ∧ c.max_endings ≤ 8

instance : DecidablePred DiamondConfig.Valid := fun c => by
  unfold DiamondConfig.Valid; infer_instance

/-- `CYOA_CONSTANTS.MAX_SCENE_REGENERATIONS` from `state.ts`. -/
def MAX_SCENE_REGENERATIONS : Nat := 3

/-- `Math.ceil (a / b)` for integers with `b ≥ 0`, as exact arithmetic
(`Int` division is Euclidean, so `-(-a / b)` is the ceiling). -/
def ceilDiv (a b : Int) : Int := -(-a / b)

/-- `calculateDiamondShape` from `state.ts`.  The loop pushing one entry per
`level in [0, levels)` is a map over `List.range`.  Expanding phase:
`Math.ceil(1 + (max_width-1) * (level/midpoint))`, the exact value of which
is `ceilDiv (midpoint + (max_width-1)*level) midpoint`; final level:
`Math.ceil((min_endings+max_endings)/2)`; contracting phase:
`Math.ceil(min_endings + (max_width-min_endings) * (remaining/span))`, whose
exact value is `ceilDiv (span*min_endings + (max_width-min_endings)*remaining)
span`. -/
def calculateDiamondShape (config : DiamondConfig) : List Int :=
  let levels := config.max_levels
  let midpoint := levels / 2
  (List.range levels).map fun level =>
    if level = 0 then
      1
    else if level ≤ midpoint then
      let width : Int :=
        ceilDiv ((midpoint : Int) + ((config.max_width : Int) - 1) * (level : Int)) midpoint
      min width (config.max_width : Int)
    else if level = levels - 1 then
      ceilDiv ((config.min_endings : Int) + (config.max_endings : Int)) 2
    else
      let remaining := levels - 1 - level
      let span := levels - 1 - midpoint
      ceilDiv ((span : Int) * (config.min_endings : Int) +
        ((config.max_width : Int) - (config.min_endings : Int)) * (remaining : Int)) span

/-- Reference formula for one diamond-shape entry, written from the spec's
words (§4.1 / claim C1) in rational arithmetic: entry 0 is 1; for
`0 < level ≤ mid` the entry is `min(max_width, ceil(1 + (max_width-1) *
level/mid))`; for `level = L-1` it is `ceil((min_endings+max_endings)/2)`;
for every other level, with `remaining = L-1-level` and `span = L-1-mid`,
it is `ceil(min_endings + (max_width-min_endings) * remaining/span)`. -/
def specShapeEntry (config : DiamondConfig) (level : Nat) : Int :=
  let L := config.max_levels
  let mid := L / 2
  if level = 0 then
    1
  else if level ≤ mid then
    min (config.max_width : Int)
      ⌈1 + ((config.max_width : ℚ) - 1) * (level : ℚ) / (mid : ℚ)⌉
  else if level = L - 1 then
    ⌈((config.min_endings : ℚ) + (config.max_endings : ℚ)) / 2⌉
  else
    ⌈(config.min_endings : ℚ) +
      ((config.max_width : ℚ) - (config.min_endings : ℚ)) *
        ((L - 1 - level : ℕ) : ℚ) / ((L - 1 - mid : ℕ) : ℚ)⌉

/-- `generateCYOASceneId` from `state.ts`: the template string
`scene_L(level)_(index)`. -/
def generateCYOASceneId (level index : Nat) : String :=
  "scene_L" ++ toString level ++ "_" ++ toString index

/-- The condition under which `calculateDiamondShape` takes the expanding
branch at `level` (and so divides by `midpoint = max_levels / 2`). -/
def expandingBranchAt (config : DiamondConfig) (level : Nat) : Prop :=
  level < config.max_levels ∧ level ≠ 0 ∧ level ≤ config.max_levels / 2

/-- The condition under which `calculateDiamondShape` takes the contracting
branch at `level` (and so divides by `span = max_levels - 1 - midpoint`). -/
def contractingBranchAt (config : DiamondConfig) (level : Nat) : Prop :=
  level < config.max_levels ∧ level ≠ 0 ∧ ¬ level ≤ config.max_levels / 2 ∧
    level ≠ config.max_levels - 1

/-- `SceneTypeSchema` from `state.ts`. -/
inductive SceneType
  | intro
  | branch
  | consequence
  | ending
deriving DecidableEq, Repr

/-- `EndingQualitySchema` from `state.ts`. -/
inductive EndingQuality
  | bad
  | neutral
  | good
  | best
  | secret
deriving DecidableEq, Repr

/-- `DecisionSchema` from `state.ts`. -/
structure Decision where
  id : String
  text : String
  consequence_hint : Option String
  leads_to : String
  choice_order : Nat
deriving DecidableEq, Repr

/-- `SceneSchema` from `state.ts` (`character_state_changes` is never set by
the orchestrator and is omitted). -/
structure Scene where
  id : String
  scene_type : SceneType
  level : Nat
  content : String
  decisions : List Decision
  is_ending : Bool
  ending_quality : Option EndingQuality
  ending_summary : Option String
  previous_scene_ids : List String
deriving DecidableEq, Repr

/-- One entry of `world_rules.possible_endings`. -/
structure PlannedEnding where
  quality : EndingQuality
  condition : String
  summary : String
deriving DecidableEq, Repr

/-- `StoryGenerationState` (the fields the orchestrator reads or writes;
`world_rules` is reduced to its `possible_endings` list, the only part the
orchestrator's control flow consumes; the input parameters genre/tone/… only
feed prompt text). The scene map is an association list with unique keys, the
rendering of a JS object in insertion order. -/
structure StoryGenerationState where
  diamond_config : DiamondConfig
  world_rules : Option (List PlannedEnding)
  scenes : List (String × Scene)
  scenes_by_level : List (List String)
  scenes_generated : Nat
  total_words : Nat
deriving DecidableEq, Repr

/-- `state.scenes[k]` (JS object read). -/
def scenesGet (m : List (String × Scene)) (k : String) : Option Scene :=
  (m.find? (fun kv => kv.1 = k)).map (fun kv => kv.2)

/-- `Object.keys(state.scenes)` in insertion order. -/
def scenesKeys (m : List (String × Scene)) : List String := m.map (fun kv => kv.1)

/-- `state.scenes[k] = v` (JS object write): replace in place if the key is
present, otherwise append. -/
def scenesInsert (m : List (String × Scene)) (k : String) (v : Scene) :
    List (String × Scene) :=
  if k ∈ scenesKeys m then m.map (fun kv => if kv.1 = k then (k, v) else kv)
  else m ++ [(k, v)]

/-- `createStoryGenerationState` from `state.ts`: empty scene map,
`max_levels` empty per-level id lists, counters at zero. -/
def createStoryGenerationState (config : DiamondConfig) : StoryGenerationState :=
  { diamond_config := config
    world_rules := none
    scenes := []
    scenes_by_level := List.replicate config.max_levels []
    scenes_generated := 0
    total_words := 0 }

/-- Helper for `jsSetDedup`: keep the elements not yet seen. -/
def jsSetDedupAcc : List String → List String → List String
  | _, [] => []
  | seen, a :: l =>
    if a ∈ seen then jsSetDedupAcc seen l else a :: jsSetDedupAcc (a :: seen) l

/-- JS `[...new Set(l)]`: deduplicate keeping first occurrences. -/
def jsSetDedup (l : List String) : List String := jsSetDedupAcc [] l

/-- Contracting-phase bucket lower bound inside `calculateIncomingScenes`:
`startPrev = Math.floor(index / ratio)` with `ratio = scenesAtThisLevel /
prevCount`; its exact value is `index * prevCount / scenesAtThisLevel` in
`Nat` division. -/
def bucketStart (index scenesAtThisLevel prevCount : Nat) : Nat :=
  index * prevCount / scenesAtThisLevel

/-- Contracting-phase bucket upper bound:
`endPrev = min(prevCount - 1, Math.floor((index + 1) / ratio))`. -/
def bucketEnd (index scenesAtThisLevel prevCount : Nat) : Nat :=
  min (prevCount - 1) ((index + 1) * prevCount / scenesAtThisLevel)

/-- The contracting-phase bucket of `calculateIncomingScenes`: the ids pushed
by the loop `for (p = startPrev; p <= endPrev; p++)`. -/
def contractBucket (index scenesAtThisLevel : Nat)
    (previousLevelSceneIds : List String) : List String :=
  let prevCount := previousLevelSceneIds.length
  let startPrev := bucketStart index scenesAtThisLevel prevCount
  let endPrev := bucketEnd index scenesAtThisLevel prevCount
  (List.range' startPrev (endPrev + 1 - startPrev)).map
    (fun p => previousLevelSceneIds.getD p "")

/-- The expanding-phase incoming list of `calculateIncomingScenes`:
`primaryPrev = Math.floor(index * ratio)` with
`ratio = prevCount / scenesAtThisLevel`, whose exact value is
`index * prevCount / scenesAtThisLevel`, clamped into range, plus the
optional secondary link `Math.max(0, primaryPrev - 1)` (truncated
subtraction) when `index > 0` and the coin came up. -/
def expandIncoming (index scenesAtThisLevel : Nat)
    (previousLevelSceneIds : List String) (secondaryCoin : Bool) : List String :=
  let prevCount := previousLevelSceneIds.length
  let primaryPrev := index * prevCount / scenesAtThisLevel
  let base := [previousLevelSceneIds.getD (min primaryPrev (prevCount - 1)) ""]
  if 0 < index ∧ secondaryCoin = true then
    let secondary := primaryPrev - 1
    let s := previousLevelSceneIds.getD secondary ""
    if s ∈ base then base else base ++ [s]
  else base

/-- `CYOAOrchestrator.calculateIncomingScenes`.  `secondaryCoin` is the
outcome of `Math.random() > 0.5`. -/
def calculateIncomingScenes (level index scenesAtThisLevel : Nat)
    (previousLevelSceneIds : List String) (config : DiamondConfig)
    (secondaryCoin : Bool) : List String :=
  if level = 0 then []
  else if previousLevelSceneIds.length = 0 then []
  else
    let midpoint := config.max_levels / 2
    let isExpanding := level ≤ midpoint
    let incoming :=
      if isExpanding then
        expandIncoming index scenesAtThisLevel previousLevelSceneIds secondaryCoin
      else
        let bucket := contractBucket index scenesAtThisLevel previousLevelSceneIds
        if bucket.isEmpty then [previousLevelSceneIds.getD 0 ""] else bucket
    jsSetDedup incoming

/-- Generation modes of the orchestrator. -/
inductive GenerationMode
  | draft
  | polished
deriving DecidableEq, Repr

/-- The editor agent's three decisions (`CYOAEditorOutputSchema`). -/
inductive EditorDecision
  | ACCEPT
  | REWRITE
  | REGENERATE
deriving DecidableEq, Repr

/-- The critic collaborator's structured reply (the fields the orchestrator's
control flow consumes; the quality scores only feed logging). -/
structure CYOAEditorOutput where
  decision : EditorDecision
  edited_content : Option String
  rewrite_instructions : Option String
  regenerate_reason : Option String
deriving DecidableEq, Repr

/-- One candidate choice in a generation reply. -/
structure GeneratedChoice where
  text : String
  consequence_hint : Option String
deriving DecidableEq, Repr

/-- Parsed output of the generation collaborator (`GeneratedSceneSchema`).
Note the schema places no upper bound on `decisions.length`. -/
structure GeneratedSceneOut where
  narrative : String
  decisions : List GeneratedChoice
deriving DecidableEq, Repr

/-- The external collaborators and the randomness source, as oracles: the
generation and critic collaborators' structured replies per scene id and
attempt number, the `Math.random() > 0.5` coin per (level, index), and the
world-rules reply's `possible_endings`. -/
structure Oracles where
  gen : String → Nat → GeneratedSceneOut
  critic : String → Nat → CYOAEditorOutput
  coin : Nat → Nat → Bool
  world : List PlannedEnding

/-- A concrete oracle for instantiations: every generation reply is `"w"`
with no choices; the critic always asks for a rewrite. -/
def oracleNoChoices : Oracles where
  gen := fun _ _ => { narrative := "w", decisions := [] }
  critic := fun _ _ =>
    { decision := EditorDecision.REWRITE, edited_content := none,
      rewrite_instructions := none, regenerate_reason := none }
  coin := fun _ _ => false
  world := []

/-- A concrete oracle for instantiations: every generation reply is `"w"`
with five schema-conforming choices; the critic always accepts. -/
def oracleFiveChoices : Oracles where
  gen := fun _ _ =>
    { narrative := "w",
      decisions := [⟨"c1", none⟩, ⟨"c2", none⟩, ⟨"c3", none⟩, ⟨"c4", none⟩, ⟨"c5", none⟩] }
  critic := fun _ _ =>
    { decision := EditorDecision.ACCEPT, edited_content := none,
      rewrite_instructions := none, regenerate_reason := none }
  coin := fun _ _ => false
  world := []

/-- A concrete oracle for instantiations: every generation reply is `"w"`
with one choice; the critic always accepts. -/
def oracleOneChoice : Oracles where
  gen := fun _ _ => { narrative := "w", decisions := [⟨"c1", none⟩] }
  critic := fun _ _ =>
    { decision := EditorDecision.ACCEPT, edited_content := none,
      rewrite_instructions := none, regenerate_reason := none }
  coin := fun _ _ => false
  world := []

/-- JS `a || b` where `a` is an optional string (`undefined` and `""` are
falsy), as used in `evaluation.edited_content || rawContent.narrative`. -/
def jsOr (a : Option String) (b : String) : String :=
  match a with
  | some s => if s = "" then b else s
  | none => b

/-- `list.map((x, i) => f(i, x))` carrying the JS callback index. -/
def jsMapIdxFrom (f : Nat → α → β) : Nat → List α → List β
  | _, [] => []
  | i, a :: l => f i a :: jsMapIdxFrom f (i + 1) l

def jsMapIdx (f : Nat → α → β) (l : List α) : List β := jsMapIdxFrom f 0 l

/-- The decision objects `generateScene` builds from a generation reply:
ids `(sceneId)_decision_(i)`, placeholder `leads_to = ''`,
`choice_order = i + 1`. -/
def mkDecisions (sceneId : String) (choices : List GeneratedChoice) : List Decision :=
  jsMapIdx (fun i c =>
    { id := sceneId ++ "_decision_" ++ toString i
      text := c.text
      consequence_hint := c.consequence_hint
      leads_to := ""
      choice_order := i + 1 }) choices

/-- Result of the retry loop inside `generateScene`. -/
structure SceneLoopResult where
  attempts : Nat
  content : String
  decisions : List Decision
deriving DecidableEq, Repr

/-- The generation / editor-review retry loop of `generateScene`
(`while (attempts < CYOA_CONSTANTS.MAX_SCENE_REGENERATIONS)`).  `fuel` is
the number of iterations the `while` guard still permits (the top-level call
passes `MAX_SCENE_REGENERATIONS` with `attempts = 0`); the `fuel = 0` case is
the loop exiting by its guard with `finalContent = ''` and
`finalDecisions = []`. -/
def sceneLoop (O : Oracles) (sceneId : String) (review : Bool) (isEnding : Bool) :
    Nat → Nat → SceneLoopResult
  | 0, attempts => { attempts := attempts, content := "", decisions := [] }
  | fuel + 1, attempts =>
    let a := attempts + 1
    let raw := O.gen sceneId a
    let decisions := mkDecisions sceneId raw.decisions
    if isEnding = false ∧ decisions = [] ∧ a < MAX_SCENE_REGENERATIONS then
      sceneLoop O sceneId review isEnding fuel a
    else if review = true then
      let ev := O.critic sceneId a
      match ev.decision with
      | EditorDecision.ACCEPT =>
        { attempts := a, content := jsOr ev.edited_content raw.narrative,
          decisions := decisions }
      | EditorDecision.REWRITE =>
        if a < MAX_SCENE_REGENERATIONS then sceneLoop O sceneId review isEnding fuel a
        else { attempts := a, content := raw.narrative, decisions := decisions }
      | EditorDecision.REGENERATE =>
        if a < MAX_SCENE_REGENERATIONS then sceneLoop O sceneId review isEnding fuel a
        else { attempts := a, content := raw.narrative, decisions := decisions }
    else { attempts := a, content := raw.narrative, decisions := decisions }

/-- `CYOAOrchestrator.generateScene` (structural parts; prompt construction
only feeds the oracles' inputs and is not modelled).  The editor review
applies in polished mode and always for intro and ending scenes; the ending
quality cycles through `world_rules.possible_endings` by the number of
already-generated scenes at this level (`endingIndex % possible_endings.length`,
with the JS `NaN`-index access on an empty list yielding the `'neutral'`
default). -/
def generateScene (O : Oracles) (mode : GenerationMode) (state : StoryGenerationState)
    (sceneId : String) (sceneType : SceneType) (level : Nat)
    (incomingSceneIds : List String) (isEnding : Bool) : Scene :=
  let endingInfo : Option EndingQuality × Option String :=
    match state.world_rules with
    | some endings =>
      if isEnding = true then
        let endingIndex := (state.scenes_by_level.getD level []).length
        match endings.get? (endingIndex % endings.length) with
        | some planned => (some planned.quality, some planned.summary)
        | none => (some EndingQuality.neutral, none)
      else (none, none)
    | none => (none, none)
  let review : Bool :=
    decide (mode = GenerationMode.polished) || decide (sceneType = SceneType.intro) || isEnding
  let r := sceneLoop O sceneId review isEnding MAX_SCENE_REGENERATIONS 0
  { id := sceneId
    scene_type := sceneType
    level := level
    content := r.content
    decisions := r.decisions
    is_ending := isEnding
    ending_quality := endingInfo.1
    ending_summary := endingInfo.2
    previous_scene_ids := incomingSceneIds }

/-- The number of generation-collaborator calls `generateScene` makes for a
scene: the `attempts` counter when its retry loop exits. -/
def sceneAttempts (O : Oracles) (mode : GenerationMode) (sceneId : String)
    (sceneType : SceneType) (isEnding : Bool) : Nat :=
  (sceneLoop O sceneId
    (decide (mode = GenerationMode.polished) || decide (sceneType = SceneType.intro) || isEnding)
    isEnding MAX_SCENE_REGENERATIONS 0).attempts

/-- Word counter feeding `total_words`: the source's
`content.split(/\s+/).length`, rendered as the number of space-separated
pieces (`total_words` is not involved in any claim). -/
def countWords (s : String) : Nat := (s.data.filter (fun c => c = ' ')).length + 1

/-- One iteration of `connectDecisions`'s source loop: rewire the decisions of
`sourceId` round-robin across the target scenes that list it among their
`previous_scene_ids`, with `leadingTo[i % leadingTo.length] ||
targetSceneIds[0]` as the JS fallback. -/
def connectSource (targetSceneIds : List String) (st : StoryGenerationState)
    (sourceId : String) : StoryGenerationState :=
  match scenesGet st.scenes sourceId with
  | none => st
  | some sourceScene =>
    if sourceScene.decisions = [] then st
    else
      let leadingTo := targetSceneIds.filter (fun targetId =>
        match scenesGet st.scenes targetId with
        | some t => decide (sourceId ∈ t.previous_scene_ids)
        | none => false)
      let newDecisions := jsMapIdx (fun i d =>
        { d with leads_to :=
            match leadingTo.get? (i % leadingTo.length) with
            | some t => if t = "" then targetSceneIds.getD 0 "" else t
            | none => targetSceneIds.getD 0 "" }) sourceScene.decisions
      { st with scenes :=
          scenesInsert st.scenes sourceId { sourceScene with decisions := newDecisions } }

/-- `CYOAOrchestrator.connectDecisions`. -/
def connectDecisions (state : StoryGenerationState) (targetLevel : Nat) :
    StoryGenerationState :=
  match state.scenes_by_level.get? (targetLevel - 1),
      state.scenes_by_level.get? targetLevel with
  | some sourceLevelSceneIds, some targetSceneIds =>
    sourceLevelSceneIds.foldl (connectSource targetSceneIds) state
  | _, _ => state

/-- One iteration of `generateLevel`'s scene loop. -/
def generateLevelStep (O : Oracles) (mode : GenerationMode) (level sceneCount : Nat)
    (isLastLevel : Bool) (previousLevelSceneIds : List String)
    (st : StoryGenerationState) (i : Nat) : StoryGenerationState :=
  let sceneId := generateCYOASceneId level i
  let incoming := calculateIncomingScenes level i sceneCount previousLevelSceneIds
    st.diamond_config (O.coin level i)
  let sceneType := if level = 0 then SceneType.intro
    else if isLastLevel = true then SceneType.ending else SceneType.branch
  let scene := generateScene O mode st sceneId sceneType level incoming isLastLevel
  { st with
    scenes := scenesInsert st.scenes sceneId scene
    scenes_by_level :=
      st.scenes_by_level.set level ((st.scenes_by_level.getD level []) ++ [sceneId])
    scenes_generated := st.scenes_generated + 1
    total_words := st.total_words + countWords scene.content }

/-- `CYOAOrchestrator.generateLevel`: synthesize `sceneCount` scenes at
`level` (the previous level's id list is captured before the loop), then
connect the previous level's decisions if `level > 0`. -/
def generateLevel (O : Oracles) (mode : GenerationMode) (state : StoryGenerationState)
    (level sceneCount : Nat) (isLastLevel : Bool) : StoryGenerationState :=
  let previousLevelSceneIds :=
    if 0 < level then state.scenes_by_level.getD (level - 1) [] else []
  let state1 := (List.range sceneCount).foldl
    (generateLevelStep O mode level sceneCount isLastLevel previousLevelSceneIds) state
  if 0 < level then connectDecisions state1 level else state1

/-- First pass of `validatePaths`: force one listed last-level scene to
`is_ending = true` with an empty decision list (skipped if the id has no
scene). -/
def clearEnding (st : StoryGenerationState) (endingId : String) : StoryGenerationState :=
  match scenesGet st.scenes endingId with
  | some sc =>
    { st with scenes :=
        scenesInsert st.scenes endingId { sc with is_ending := true, decisions := [] } }
  | none => st

/-- Second pass of `validatePaths` for one scene: repoint every decision whose
`leads_to` is empty or names no scene at the first scene of the next level,
when that level has scenes (a zero-decision non-ending scene is only
logged, not repaired). -/
def repairScene (st : StoryGenerationState) (sceneId : String) : StoryGenerationState :=
  match scenesGet st.scenes sceneId with
  | none => st
  | some scene =>
    let newDecisions := scene.decisions.map (fun decision =>
      if decision.leads_to = "" ∨ scenesGet st.scenes decision.leads_to = none then
        let validTargets := st.scenes_by_level.getD (scene.level + 1) []
        if 0 < validTargets.length then
          { decision with leads_to := validTargets.getD 0 "" }
        else decision
      else decision)
    { st with scenes := scenesInsert st.scenes sceneId { scene with decisions := newDecisions } }

/-- `CYOAOrchestrator.validatePaths`. -/
def validatePaths (state : StoryGenerationState) : StoryGenerationState :=
  let lastLevel := state.diamond_config.max_levels - 1
  let endingSceneIds := state.scenes_by_level.getD lastLevel []
  let state1 := endingSceneIds.foldl clearEnding state
  (scenesKeys state1.scenes).foldl repairScene state1

/-- `CYOAOrchestrator.run`: generate world rules, plan the diamond shape,
generate the levels in order, then validate.  Progress callbacks do not touch
the state and are omitted. -/
def run (O : Oracles) (mode : GenerationMode) (state : StoryGenerationState) :
    StoryGenerationState :=
  let state1 := { state with world_rules := some O.world }
  let diamondShape := calculateDiamondShape state1.diamond_config
  let state2 := (List.range state1.diamond_config.max_levels).foldl
    (fun st level =>
      let scenesAtLevel := (diamondShape.getD level 0).toNat
      let isLastLevel : Bool := decide (level = st.diamond_config.max_levels - 1)
      generateLevel O mode st level scenesAtLevel isLastLevel) state1
  validatePaths state2

/-! ### Run invariants

The following Prop-valued definitions describe the state of a run after each
phase; they are the induction hypotheses for the end-to-end theorems. -/

/-- Number of scenes the run creates at a level: the diamond-shape entry
(as used by `run`: `toNat` of the shape value). -/
def levelCount (config : DiamondConfig) (ℓ : Nat) : Nat :=
  ((calculateDiamondShape config).getD ℓ 0).toNat

/-- The scene ids `generateLevel` appends at a level, in order. -/
def levelIds (config : DiamondConfig) (ℓ : Nat) : List String :=
  (List.range (levelCount config ℓ)).map (generateCYOASceneId ℓ)

/-- The keys of the scene map after levels `0 .. k-1` have been generated. -/
def runKeys (config : DiamondConfig) (k : Nat) : List String :=
  (List.range k).flatMap (levelIds config)

/-- All of a scene's decisions point into the next level's id list. -/
def sceneConnected (config : DiamondConfig) (ℓ : Nat) (sc : Scene) : Prop :=
  ∀ d ∈ sc.decisions, d.leads_to ∈ levelIds config (ℓ + 1)

/-- All of a scene's decisions still carry the placeholder `leads_to`. -/
def sceneFresh (sc : Scene) : Prop :=
  ∀ d ∈ sc.decisions, d.leads_to = ""

/-- Identity facts of the stored scene at `(ℓ, i)`: its fields record its id,
level and ending status, and its decision count comes from one of the (at
most three) generation replies for it. -/
structure SceneBase (O : Oracles) (config : DiamondConfig) (ℓ i : Nat)
    (sc : Scene) : Prop where
  id_eq : sc.id = generateCYOASceneId ℓ i
  level_eq : sc.level = ℓ
  ending_iff : sc.is_ending = true ↔ ℓ = config.max_levels - 1
  dec_len : ∃ a, 1 ≤ a ∧ a ≤ MAX_SCENE_REGENERATIONS ∧
    sc.decisions.length = (O.gen (generateCYOASceneId ℓ i) a).decisions.length

/-- Invariant after the run has generated levels `0 .. k-1` (and connected
decisions up to level `k-2`). -/
structure RunInv (O : Oracles) (config : DiamondConfig) (k : Nat)
    (st : StoryGenerationState) : Prop where
  cfg_eq : st.diamond_config = config
  sbl_len : st.scenes_by_level.length = config.max_levels
  sbl_done : ∀ ℓ, ℓ < k → st.scenes_by_level.get? ℓ = some (levelIds config ℓ)
  sbl_todo : ∀ ℓ, k ≤ ℓ → ℓ < config.max_levels → st.scenes_by_level.get? ℓ = some []
  keys_eq : scenesKeys st.scenes = runKeys config k
  scene_at : ∀ ℓ, ℓ < k → ∀ i, i < levelCount config ℓ →
    ∃ sc, scenesGet st.scenes (generateCYOASceneId ℓ i) = some sc ∧
      SceneBase O config ℓ i sc ∧
      (ℓ + 1 < k → sceneConnected config ℓ sc) ∧
      (k ≤ ℓ + 1 → sceneFresh sc)

/-- Invariant in the middle of `generateLevel ℓ`'s scene loop, after `j`
scenes of level `ℓ` have been synthesized. -/
structure InnerInv (O : Oracles) (config : DiamondConfig) (ℓ j : Nat)
    (st : StoryGenerationState) : Prop where
  cfg_eq : st.diamond_config = config
  sbl_len : st.scenes_by_level.length = config.max_levels
  sbl_done : ∀ m, m < ℓ → st.scenes_by_level.get? m = some (levelIds config m)
  sbl_cur : st.scenes_by_level.get? ℓ =
    some ((List.range j).map (generateCYOASceneId ℓ))
  sbl_todo : ∀ m, ℓ < m → m < config.max_levels → st.scenes_by_level.get? m = some []
  keys_eq : scenesKeys st.scenes =
    runKeys config ℓ ++ (List.range j).map (generateCYOASceneId ℓ)
  scene_old : ∀ m, m < ℓ → ∀ i, i < levelCount config m →
    ∃ sc, scenesGet st.scenes (generateCYOASceneId m i) = some sc ∧
      SceneBase O config m i sc ∧
      (m + 1 < ℓ → sceneConnected config m sc) ∧
      (ℓ ≤ m + 1 → sceneFresh sc)
  scene_new : ∀ i, i < j →
    ∃ sc, scenesGet st.scenes (generateCYOASceneId ℓ i) = some sc ∧
      SceneBase O config ℓ i sc ∧ sceneFresh sc

/-- Invariant in the middle of `connectDecisions ℓ`'s source loop, after the
first `m` sources of level `ℓ - 1` have been rewired (`1 ≤ ℓ`). -/
structure ConnInv (O : Oracles) (config : DiamondConfig) (ℓ m : Nat)
    (st : StoryGenerationState) : Prop where
  cfg_eq : st.diamond_config = config
  sbl_len : st.scenes_by_level.length = config.max_levels
  sbl_done : ∀ mm, mm ≤ ℓ → st.scenes_by_level.get? mm = some (levelIds config mm)
  sbl_todo : ∀ mm, ℓ < mm → mm < config.max_levels → st.scenes_by_level.get? mm = some []
  keys_eq : scenesKeys st.scenes = runKeys config (ℓ + 1)
  scene_old : ∀ mm, mm + 1 < ℓ → ∀ i, i < levelCount config mm →
    ∃ sc, scenesGet st.scenes (generateCYOASceneId mm i) = some sc ∧
      SceneBase O config mm i sc ∧ sceneConnected config mm sc
  scene_src : ∀ i, i < levelCount config (ℓ - 1) →
    ∃ sc, scenesGet st.scenes (generateCYOASceneId (ℓ - 1) i) = some sc ∧
      SceneBase O config (ℓ - 1) i sc ∧
      (i < m → sceneConnected config (ℓ - 1) sc) ∧
      (m ≤ i → sceneFresh sc)
  scene_tgt : ∀ i, i < levelCount config ℓ →
    ∃ sc, scenesGet st.scenes (generateCYOASceneId ℓ i) = some sc ∧
      SceneBase O config ℓ i sc ∧ sceneFresh sc

/-- Invariant in the middle of `validatePaths`'s ending-clearing loop, after
the first `m` last-level scenes have been forced into well-formed endings. -/
structure ClearInv (O : Oracles) (config : DiamondConfig) (m : Nat)
    (st : StoryGenerationState) : Prop where
  cfg_eq : st.diamond_config = config
  sbl_len : st.scenes_by_level.length = config.max_levels
  sbl_all : ∀ ℓ, ℓ < config.max_levels →
    st.scenes_by_level.get? ℓ = some (levelIds config ℓ)
  keys_eq : scenesKeys st.scenes = runKeys config config.max_levels
  scene_nonlast : ∀ ℓ, ℓ < config.max_levels - 1 → ∀ i, i < levelCount config ℓ →
    ∃ sc, scenesGet st.scenes (generateCYOASceneId ℓ i) = some sc ∧
      SceneBase O config ℓ i sc ∧ sceneConnected config ℓ sc
  scene_last : ∀ i, i < levelCount config (config.max_levels - 1) →
    ∃ sc, scenesGet st.scenes
        (generateCYOASceneId (config.max_levels - 1) i) = some sc ∧
      sc.id = generateCYOASceneId (config.max_levels - 1) i ∧
      sc.level = config.max_levels - 1 ∧
      (i < m → sc.is_ending = true ∧ sc.decisions = []) ∧
      (m ≤ i → SceneBase O config (config.max_levels - 1) i sc ∧ sceneFresh sc)

/-- Facts about the final state of a completed run that the graph claims
read off.  (A cleared ending no longer satisfies `SceneBase.dec_len`, so the
fields are listed separately here.) -/
structure FinalInv (O : Oracles) (config : DiamondConfig)
    (st : StoryGenerationState) : Prop where
  keys_eq : scenesKeys st.scenes = runKeys config config.max_levels
  keys_nodup : (scenesKeys st.scenes).Nodup
  scene_at : ∀ ℓ, ℓ < config.max_levels → ∀ i, i < levelCount config ℓ →
    ∃ sc, scenesGet st.scenes (generateCYOASceneId ℓ i) = some sc ∧
      sc.id = generateCYOASceneId ℓ i ∧ sc.level = ℓ ∧
      (sc.is_ending = true ↔ ℓ = config.max_levels - 1) ∧
      (ℓ = config.max_levels - 1 → sc.decisions = []) ∧
      (ℓ ≠ config.max_levels - 1 → sceneConnected config ℓ sc ∧
        ∃ a, 1 ≤ a ∧ a ≤ MAX_SCENE_REGENERATIONS ∧
          sc.decisions.length = (O.gen (generateCYOASceneId ℓ i) a).decisions.length)

/-! ### Theorems -/

theorem scenesKeys_cons (a : String × Scene) (m : List (String × Scene)) :
    scenesKeys (a :: m) = a.1 :: scenesKeys m := rfl

theorem scenesGet_cons (a : String × Scene) (m : List (String × Scene)) (k : String) :
    scenesGet (a :: m) k = if a.1 = k then some a.2 else scenesGet m k := by
  by_cases h : a.1 = k
  · simp only [scenesGet]
    rw [List.find?_cons_of_pos _ (by simp [h]), if_pos h]
    rfl
  · simp only [scenesGet]
    rw [List.find?_cons_of_neg _ (by simp [h]), if_neg h]

theorem scenesGet_eq_none_iff {m : List (String × Scene)} {k : String} :
    scenesGet m k = none ↔ k ∉ scenesKeys m := by
  induction m with
  | nil => simp [scenesGet, scenesKeys]
  | cons a m ih =>
    rw [scenesGet_cons, scenesKeys_cons]
    by_cases h : a.1 = k
    · simp [h]
    · rw [if_neg h, ih]
      simp only [List.mem_cons, not_or]
      constructor
      · exact fun hn => ⟨fun hc => h hc.symm, hn⟩
      · exact fun hn => hn.2

theorem scenesGet_isSome_of_mem_keys {m : List (String × Scene)} {k : String}
    (h : k ∈ scenesKeys m) : (scenesGet m k).isSome := by
  cases hg : scenesGet m k with
  | none => exact absurd (scenesGet_eq_none_iff.mp hg) (not_not.mpr h)
  | some v => rfl

theorem mem_keys_of_scenesGet {m : List (String × Scene)} {k : String} {v : Scene}
    (h : scenesGet m k = some v) : k ∈ scenesKeys m := by
  by_contra hc
  rw [← scenesGet_eq_none_iff] at hc
  rw [h] at hc
  exact Option.noConfusion hc

theorem mem_of_scenesGet {m : List (String × Scene)} {k : String} {v : Scene}
    (h : scenesGet m k = some v) : (k, v) ∈ m := by
  induction m with
  | nil => simp [scenesGet] at h
  | cons a m ih =>
    rw [scenesGet_cons] at h
    by_cases hk : a.1 = k
    · rw [if_pos hk] at h
      refine List.mem_cons.mpr (Or.inl ?_)
      obtain ⟨a1, a2⟩ := a
      simp only [Option.some_inj] at h
      simp only at hk
      rw [hk, h]
    · rw [if_neg hk] at h
      exact List.mem_cons_of_mem _ (ih h)

theorem scenesGet_of_mem_nodup {m : List (String × Scene)} {k : String} {v : Scene}
    (hnd : (scenesKeys m).Nodup) (h : (k, v) ∈ m) : scenesGet m k = some v := by
  induction m with
  | nil => simp at h
  | cons a m ih =>
    rw [scenesKeys_cons, List.nodup_cons] at hnd
    rw [scenesGet_cons]
    rcases List.mem_cons.mp h with rfl | hm
    · rw [if_pos rfl]
    · have hk : a.1 ≠ k := by
        intro hc
        exact hnd.1 (hc ▸ (List.mem_map.mpr ⟨(k, v), hm, rfl⟩))
      rw [if_neg hk]
      exact ih hnd.2 hm

/-- Replacing the entries at key `k` does not change the key list. -/
theorem scenesKeys_mapReplace (m : List (String × Scene)) (k : String) (v : Scene) :
    scenesKeys (m.map (fun kv => if kv.1 = k then (k, v) else kv)) = scenesKeys m := by
  simp only [scenesKeys, List.map_map]
  refine List.map_congr_left fun kv _ => ?_
  by_cases hkv : kv.1 = k <;> simp [hkv]

theorem scenesGet_mapReplace_ne (m : List (String × Scene)) (k : String) (v : Scene)
    {k2 : String} (h : k2 ≠ k) :
    scenesGet (m.map (fun kv => if kv.1 = k then (k, v) else kv)) k2 = scenesGet m k2 := by
  induction m with
  | nil => rfl
  | cons a m ih =>
    rw [List.map_cons, scenesGet_cons, scenesGet_cons]
    by_cases hk : a.1 = k
    · rw [if_pos hk]
      rw [if_neg (fun hc : k = k2 => h hc.symm),
        if_neg (fun hc : a.1 = k2 => h (hc.symm.trans hk))]
      exact ih
    · rw [if_neg hk]
      by_cases hk2 : a.1 = k2
      · rw [if_pos hk2, if_pos hk2]
      · rw [if_neg hk2, if_neg hk2]
        exact ih

theorem scenesGet_mapReplace_self (m : List (String × Scene)) (k : String) (v : Scene)
    (h : k ∈ scenesKeys m) :
    scenesGet (m.map (fun kv => if kv.1 = k then (k, v) else kv)) k = some v := by
  induction m with
  | nil => simp [scenesKeys] at h
  | cons a m ih =>
    rw [List.map_cons, scenesGet_cons]
    by_cases hk : a.1 = k
    · rw [if_pos hk, if_pos rfl]
    · rw [if_neg hk, if_neg hk]
      rcases List.mem_cons.mp h with rfl | hm
      · exact absurd rfl hk
      · exact ih hm

theorem mapReplace_id_of_not_mem {m : List (String × Scene)} {k : String} (v : Scene)
    (h : k ∉ scenesKeys m) :
    m.map (fun kv => if kv.1 = k then (k, v) else kv) = m := by
  induction m with
  | nil => rfl
  | cons a m ih =>
    rw [List.map_cons,
      if_neg (fun hc : a.1 = k => h (hc ▸ List.mem_cons_self _ _)),
      ih (fun hc => h (List.mem_cons_of_mem _ hc))]

theorem scenesKeys_insert_mem {m : List (String × Scene)} {k : String} (v : Scene)
    (h : k ∈ scenesKeys m) : scenesKeys (scenesInsert m k v) = scenesKeys m := by
  rw [scenesInsert, if_pos h]
  exact scenesKeys_mapReplace m k v

theorem scenesKeys_insert_not_mem {m : List (String × Scene)} {k : String} (v : Scene)
    (h : k ∉ scenesKeys m) : scenesKeys (scenesInsert m k v) = scenesKeys m ++ [k] := by
  rw [scenesInsert, if_neg h, scenesKeys, List.map_append]
  rfl

theorem scenesGet_append_not_mem {m1 m2 : List (String × Scene)} {k : String}
    (h : k ∉ scenesKeys m1) : scenesGet (m1 ++ m2) k = scenesGet m2 k := by
  induction m1 with
  | nil => rfl
  | cons a m1 ih =>
    rw [List.cons_append, scenesGet_cons,
      if_neg (fun hc : a.1 = k => h (hc ▸ List.mem_cons_self _ _))]
    exact ih (fun hc => h (List.mem_cons_of_mem _ hc))

theorem scenesGet_insert_self (m : List (String × Scene)) (k : String) (v : Scene) :
    scenesGet (scenesInsert m k v) k = some v := by
  rw [scenesInsert]
  by_cases h : k ∈ scenesKeys m
  · rw [if_pos h]
    exact scenesGet_mapReplace_self m k v h
  · rw [if_neg h, scenesGet_append_not_mem h, scenesGet_cons, if_pos rfl]

theorem scenesGet_insert_ne (m : List (String × Scene)) (k : String) (v : Scene)
    {k2 : String} (h : k2 ≠ k) : scenesGet (scenesInsert m k v) k2 = scenesGet m k2 := by
  rw [scenesInsert]
  by_cases hm : k ∈ scenesKeys m
  · rw [if_pos hm]
    exact scenesGet_mapReplace_ne m k v h
  · rw [if_neg hm]
    induction m with
    | nil => simp [scenesGet_cons, scenesGet, if_neg (fun hc : k = k2 => h hc.symm)]
    | cons a m ih =>
      rw [List.cons_append, scenesGet_cons, scenesGet_cons]
      by_cases hk2 : a.1 = k2
      · rw [if_pos hk2, if_pos hk2]
      · rw [if_neg hk2, if_neg hk2]
        exact ih (fun hc => hm (List.mem_cons_of_mem _ hc))

theorem scenesInsert_self_of_get {m : List (String × Scene)} {k : String} {v : Scene}
    (hnd : (scenesKeys m).Nodup) (h : scenesGet m k = some v) :
    scenesInsert m k v = m := by
  rw [scenesInsert, if_pos (mem_keys_of_scenesGet h)]
  induction m with
  | nil => rfl
  | cons a m ih =>
    rw [scenesKeys_cons, List.nodup_cons] at hnd
    rw [scenesGet_cons] at h
    rw [List.map_cons]
    by_cases hk : a.1 = k
    · rw [if_pos hk] at h ⊢
      simp only [Option.some_inj] at h
      have ha : a = (k, v) := by
        obtain ⟨a1, a2⟩ := a
        simp only at hk h
        rw [hk, h]
      rw [mapReplace_id_of_not_mem v (hk ▸ hnd.1), ha]
    · rw [if_neg hk] at h ⊢
      rw [ih hnd.2 h]

theorem sceneId_inj_fin : ∀ l1 i1 l2 i2 : Fin 6,
    generateCYOASceneId l1 i1 = generateCYOASceneId l2 i2 →
    (l1 : Nat) = l2 ∧ (i1 : Nat) = i2 := by
  decide

/-- Scene ids are pairwise distinct over the reachable range (levels and
indices below 6). -/
theorem sceneId_inj {l1 i1 l2 i2 : Nat} (h1 : l1 < 6) (h2 : i1 < 6) (h3 : l2 < 6)
    (h4 : i2 < 6) (h : generateCYOASceneId l1 i1 = generateCYOASceneId l2 i2) :
    l1 = l2 ∧ i1 = i2 :=
  sceneId_inj_fin ⟨l1, h1⟩ ⟨i1, h2⟩ ⟨l2, h3⟩ ⟨i2, h4⟩ h

theorem sceneId_ne_empty_fin : ∀ l i : Fin 6, generateCYOASceneId l i ≠ "" := by
  decide

theorem sceneId_ne_empty {l i : Nat} (h1 : l < 6) (h2 : i < 6) :
    generateCYOASceneId l i ≠ "" :=
  sceneId_ne_empty_fin ⟨l, h1⟩ ⟨i, h2⟩

/-- `ceilDiv` agrees with the rational ceiling `⌈a / d⌉` for `d ≥ 0`. -/
theorem ceilDiv_eq_ceil (a d : ℤ) (hd : 0 ≤ d) : ceilDiv a d = ⌈(a : ℚ) / (d : ℚ)⌉ := by
  obtain ⟨n, rfl⟩ := Int.eq_ofNat_of_zero_le hd
  rw [show ((a : ℚ) / ((n : ℤ) : ℚ)) = -(((-a : ℤ) : ℚ) / (n : ℚ)) by push_cast; ring,
    Int.ceil_neg, Rat.floor_intCast_div_natCast, ceilDiv]

theorem shape_length (config : DiamondConfig) :
    (calculateDiamondShape config).length = config.max_levels := by
  simp [calculateDiamondShape]

/-- The expanding-phase integer ceiling matches the spec's rational one. -/
theorem ceilDiv_expand (mid w level : ℕ) (hmid : 0 < mid) :
    ceilDiv ((mid : ℤ) + ((w : ℤ) - 1) * (level : ℤ)) (mid : ℤ) =
    ⌈1 + ((w : ℚ) - 1) * (level : ℚ) / (mid : ℚ)⌉ := by
  rw [ceilDiv_eq_ceil _ _ (Int.natCast_nonneg _)]
  congr 1
  have h : (mid : ℚ) ≠ 0 := by exact_mod_cast hmid.ne'
  push_cast
  field_simp

/-- The terminal-level integer ceiling matches the spec's rational one. -/
theorem ceilDiv_terminal (mn mx : ℕ) :
    ceilDiv ((mn : ℤ) + (mx : ℤ)) 2 = ⌈((mn : ℚ) + (mx : ℚ)) / 2⌉ := by
  rw [ceilDiv_eq_ceil _ _ (by norm_num)]
  congr 1
  push_cast
  norm_num

/-- The contracting-phase integer ceiling matches the spec's rational one. -/
theorem ceilDiv_contract (span mn w rem : ℕ) (hspan : 0 < span) :
    ceilDiv ((span : ℤ) * (mn : ℤ) + ((w : ℤ) - (mn : ℤ)) * (rem : ℤ)) (span : ℤ) =
    ⌈(mn : ℚ) + ((w : ℚ) - (mn : ℚ)) * (rem : ℚ) / (span : ℚ)⌉ := by
  rw [ceilDiv_eq_ceil _ _ (Int.natCast_nonneg _)]
  congr 1
  have h : (span : ℚ) ≠ 0 := by exact_mod_cast hspan.ne'
  push_cast
  field_simp
  ring

/-- Each entry of the computed diamond shape equals the spec's reference
formula. -/
theorem shape_get_eq_specShapeEntry (config : DiamondConfig) (level : Nat)
    (h : level < config.max_levels) :
    (calculateDiamondShape config)[level]? = some (specShapeEntry config level) := by
  rw [calculateDiamondShape, List.getElem?_map, List.getElem?_range h, Option.map_some']
  congr 1
  unfold specShapeEntry
  by_cases h0 : level = 0
  · simp [h0]
  · by_cases hexp : level ≤ config.max_levels / 2
    · have hmid : 0 < config.max_levels / 2 :=
        lt_of_lt_of_le (Nat.pos_of_ne_zero h0) hexp
      simp only [if_neg h0, if_pos hexp]
      rw [ceilDiv_expand _ _ _ hmid, min_comm]
    · by_cases hlast : level = config.max_levels - 1
      · simp only [if_neg h0, if_neg hexp, if_pos hlast]
        rw [ceilDiv_terminal]
      · have hspan : 0 < config.max_levels - 1 - config.max_levels / 2 := by omega
        simp only [if_neg h0, if_neg hexp, if_neg hlast]
        rw [ceilDiv_contract _ _ _ _ hspan]

/-- C1: for every valid `DiamondConfig`, `calculateDiamondShape` returns a
list of length `max_levels` whose entries follow the reference formula
`specShapeEntry` (entry 0 is 1; expanding, terminal, and contracting
formulas as in the spec); in particular the config
`{max_levels: 4, max_width: 4, min_endings: 2, max_endings: 3}` yields
`[1, 3, 4, 3]`. -/
theorem C1_diamond_shape (config : DiamondConfig) (_hv : config.Valid) :
    (calculateDiamondShape config).length = config.max_levels ∧
    (∀ level < config.max_levels,
      (calculateDiamondShape config)[level]? = some (specShapeEntry config level)) ∧
    calculateDiamondShape ⟨4, 4, 2, 3, 2⟩ = [1, 3, 4, 3] :=
  ⟨shape_length config, fun level hl => shape_get_eq_specShapeEntry config level hl,
    by decide⟩

/-- Witness for C1 at the quick preset's diamond configuration. -/
theorem C1_diamond_shape_witness :
    DiamondConfig.Valid ⟨4, 4, 2, 3, 2⟩ ∧
    (calculateDiamondShape ⟨4, 4, 2, 3, 2⟩).length = 4 ∧
    (calculateDiamondShape ⟨4, 4, 2, 3, 2⟩)[1]? = some (specShapeEntry ⟨4, 4, 2, 3, 2⟩ 1) :=
  ⟨by decide, (C1_diamond_shape ⟨4, 4, 2, 3, 2⟩ (by decide)).1,
    (C1_diamond_shape ⟨4, 4, 2, 3, 2⟩ (by decide)).2.1 1 (by decide)⟩

/-- C7: for every valid config, the expanding branch divides by
`midpoint = max_levels / 2` only when `1 ≤ level ≤ midpoint`, which forces
`midpoint ≥ 1`; the contracting branch divides by
`span = max_levels - 1 - midpoint` only when `midpoint < level <
max_levels - 1`, which forces `span ≥ 2`: the `span = 0` case is
unreachable for valid configs. -/
theorem C7_no_division_by_zero (config : DiamondConfig) (hv : config.Valid) :
    ∀ level : Nat,
      (expandingBranchAt config level → 1 ≤ config.max_levels / 2) ∧
      (contractingBranchAt config level →
        2 ≤ config.max_levels - 1 - config.max_levels / 2) := by
  obtain ⟨h1, h2, -⟩ := hv
  intro level
  unfold expandingBranchAt contractingBranchAt
  omega

/-- Witness for C7 at the quick preset's diamond configuration. -/
theorem C7_no_division_by_zero_witness :
    DiamondConfig.Valid ⟨4, 4, 2, 3, 2⟩ ∧
    (expandingBranchAt ⟨4, 4, 2, 3, 2⟩ 1 → 1 ≤ (4 : Nat) / 2) :=
  ⟨by decide, (C7_no_division_by_zero ⟨4, 4, 2, 3, 2⟩ (by decide) 1).1⟩

/-! #### `jsMapIdx` and `mkDecisions` -/

theorem jsMapIdxFrom_length {α β : Type} (f : Nat → α → β) :
    ∀ (n : Nat) (l : List α), (jsMapIdxFrom f n l).length = l.length := by
  intro n l
  induction l generalizing n with
  | nil => rfl
  | cons a l ih => simp [jsMapIdxFrom, ih]

theorem jsMapIdx_length {α β : Type} (f : Nat → α → β) (l : List α) :
    (jsMapIdx f l).length = l.length := jsMapIdxFrom_length f 0 l

theorem forall_mem_jsMapIdxFrom {α β : Type} {P : β → Prop} (f : Nat → α → β)
    (hf : ∀ i x, P (f i x)) :
    ∀ (n : Nat) (l : List α), ∀ b ∈ jsMapIdxFrom f n l, P b := by
  intro n l
  induction l generalizing n with
  | nil => intro b hb; simp [jsMapIdxFrom] at hb
  | cons a l ih =>
    intro b hb
    rcases List.mem_cons.mp hb with rfl | hb
    · exact hf _ _
    · exact ih _ b hb

theorem forall_mem_jsMapIdx {α β : Type} {P : β → Prop} (f : Nat → α → β) (l : List α)
    (hf : ∀ i x, P (f i x)) : ∀ b ∈ jsMapIdx f l, P b :=
  forall_mem_jsMapIdxFrom f hf 0 l

theorem mkDecisions_length (sceneId : String) (choices : List GeneratedChoice) :
    (mkDecisions sceneId choices).length = choices.length :=
  jsMapIdx_length _ _

theorem mkDecisions_fresh (sceneId : String) (choices : List GeneratedChoice) :
    ∀ d ∈ mkDecisions sceneId choices, d.leads_to = "" :=
  forall_mem_jsMapIdx _ _ (fun _ _ => rfl)

/-! #### Shape bounds and level ids -/

theorem shape_getD (config : DiamondConfig) {ℓ : Nat} (h : ℓ < config.max_levels) :
    (calculateDiamondShape config).getD ℓ 0 = specShapeEntry config ℓ := by
  have hlen : ℓ < (calculateDiamondShape config).length := by
    rw [shape_length]; exact h
  rw [List.getD_eq_getElem?_getD, shape_get_eq_specShapeEntry config ℓ h]
  rfl

theorem specShapeEntry_bounds (config : DiamondConfig) (hv : config.Valid) {ℓ : Nat}
    (h : ℓ < config.max_levels) :
    1 ≤ specShapeEntry config ℓ ∧ specShapeEntry config ℓ ≤ 6 := by
  obtain ⟨h1, h2, h3, h4, h5, h6, h7, h8⟩ := hv
  unfold specShapeEntry
  by_cases h0 : ℓ = 0
  · simp [h0]
  rw [if_neg h0]
  by_cases hexp : ℓ ≤ config.max_levels / 2
  · rw [if_pos hexp]
    have hmid : 0 < config.max_levels / 2 := by omega
    have hwQ : (2 : ℚ) ≤ (config.max_width : ℚ) := by exact_mod_cast h3
    constructor
    · refine le_min (by exact_mod_cast by omega : (1 : ℤ) ≤ (config.max_width : ℤ)) ?_
      have hnn : (0 : ℚ) ≤ ((config.max_width : ℚ) - 1) * (ℓ : ℚ) /
          ((config.max_levels / 2 : ℕ) : ℚ) := by
        apply div_nonneg
        · exact mul_nonneg (by linarith) (Nat.cast_nonneg _)
        · exact Nat.cast_nonneg _
      have : (0 : ℚ) < 1 + ((config.max_width : ℚ) - 1) * (ℓ : ℚ) /
          ((config.max_levels / 2 : ℕ) : ℚ) := by linarith
      have := Int.ceil_pos.mpr this
      omega
    · exact le_trans (min_le_left _ _) (by exact_mod_cast h4)
  rw [if_neg hexp]
  by_cases hlast : ℓ = config.max_levels - 1
  · rw [if_pos hlast]
    constructor
    · have : (0 : ℚ) < ((config.min_endings : ℚ) + (config.max_endings : ℚ)) / 2 := by
        have : (2 : ℚ) ≤ (config.min_endings : ℚ) := by exact_mod_cast h5
        have : (3 : ℚ) ≤ (config.max_endings : ℚ) := by exact_mod_cast h7
        linarith
      have := Int.ceil_pos.mpr this
      omega
    · rw [Int.ceil_le]
      have ha : (config.min_endings : ℚ) ≤ 4 := by exact_mod_cast h6
      have hb : (config.max_endings : ℚ) ≤ 8 := by exact_mod_cast h8
      push_cast
      linarith
  rw [if_neg hlast]
  have hspan : 0 < config.max_levels - 1 - config.max_levels / 2 := by omega
  have hremn : 1 ≤ config.max_levels - 1 - ℓ := by omega
  have hrs : config.max_levels - 1 - ℓ ≤ config.max_levels - 1 - config.max_levels / 2 := by
    omega
  have hspanQ : (0 : ℚ) < ((config.max_levels - 1 - config.max_levels / 2 : ℕ) : ℚ) := by
    exact_mod_cast hspan
  have hρ0 : (0 : ℚ) ≤ ((config.max_levels - 1 - ℓ : ℕ) : ℚ) /
      ((config.max_levels - 1 - config.max_levels / 2 : ℕ) : ℚ) :=
    div_nonneg (Nat.cast_nonneg _) (le_of_lt hspanQ)
  have hρ1 : ((config.max_levels - 1 - ℓ : ℕ) : ℚ) /
      ((config.max_levels - 1 - config.max_levels / 2 : ℕ) : ℚ) ≤ 1 := by
    rw [div_le_one hspanQ]
    exact_mod_cast hrs
  have hmnQ : (2 : ℚ) ≤ (config.min_endings : ℚ) := by exact_mod_cast h5
  have hmnQ2 : (config.min_endings : ℚ) ≤ 4 := by exact_mod_cast h6
  have hwQ : (2 : ℚ) ≤ (config.max_width : ℚ) := by exact_mod_cast h3
  have hwQ2 : (config.max_width : ℚ) ≤ 6 := by exact_mod_cast h4
  rw [mul_div_assoc]
  constructor
  · have hq : (0 : ℚ) < (config.min_endings : ℚ) +
        ((config.max_width : ℚ) - (config.min_endings : ℚ)) *
          (((config.max_levels - 1 - ℓ : ℕ) : ℚ) /
            ((config.max_levels - 1 - config.max_levels / 2 : ℕ) : ℚ)) := by
      rcases le_total (config.min_endings : ℚ) (config.max_width : ℚ) with hc | hc
      · nlinarith
      · nlinarith
    have := Int.ceil_pos.mpr hq
    omega
  · rw [Int.ceil_le]
    push_cast
    rcases le_total (config.min_endings : ℚ) (config.max_width : ℚ) with hc | hc
    · nlinarith
    · nlinarith

theorem levelCount_bounds (config : DiamondConfig) (hv : config.Valid) {ℓ : Nat}
    (h : ℓ < config.max_levels) :
    1 ≤ levelCount config ℓ ∧ levelCount config ℓ ≤ 6 := by
  have hb := specShapeEntry_bounds config hv h
  rw [levelCount, shape_getD config h]
  omega

theorem levelIds_length (config : DiamondConfig) (ℓ : Nat) :
    (levelIds config ℓ).length = levelCount config ℓ := by
  simp [levelIds]

theorem mem_levelIds {config : DiamondConfig} {ℓ : Nat} {x : String} :
    x ∈ levelIds config ℓ ↔
      ∃ i, i < levelCount config ℓ ∧ x = generateCYOASceneId ℓ i := by
  simp only [levelIds, List.mem_map, List.mem_range]
  constructor
  · rintro ⟨i, hi, rfl⟩; exact ⟨i, hi, rfl⟩
  · rintro ⟨i, hi, rfl⟩; exact ⟨i, hi, rfl⟩

theorem levelIds_ne_nil (config : DiamondConfig) (hv : config.Valid) {ℓ : Nat}
    (h : ℓ < config.max_levels) : levelIds config ℓ ≠ [] := by
  have := (levelCount_bounds config hv h).1
  intro hc
  have := congrArg List.length hc
  rw [levelIds_length] at this
  simp at this
  omega

theorem levelIds_nodup (config : DiamondConfig) (hv : config.Valid) {ℓ : Nat}
    (h : ℓ < config.max_levels) : (levelIds config ℓ).Nodup := by
  have hL6 : config.max_levels ≤ 6 := hv.2.1
  have hc6 := (levelCount_bounds config hv h).2
  rw [levelIds]
  refine List.Nodup.map_on ?_ (List.nodup_range _)
  intro i hi j hj hij
  rw [List.mem_range] at hi hj
  exact (sceneId_inj (by omega) (by omega : i < 6)
    (by omega) (by omega : j < 6) hij).2

theorem runKeys_zero (config : DiamondConfig) : runKeys config 0 = [] := rfl

theorem runKeys_succ (config : DiamondConfig) (k : Nat) :
    runKeys config (k + 1) = runKeys config k ++ levelIds config k := by
  rw [runKeys, runKeys, List.range_succ, List.flatMap_append, List.flatMap_singleton]

theorem mem_runKeys {config : DiamondConfig} {k : Nat} {x : String} :
    x ∈ runKeys config k ↔ ∃ ℓ, ℓ < k ∧ x ∈ levelIds config ℓ := by
  simp [runKeys, List.mem_flatMap, List.mem_range]

theorem runKeys_nodup (config : DiamondConfig) (hv : config.Valid) {k : Nat}
    (hk : k ≤ config.max_levels) : (runKeys config k).Nodup := by
  induction k with
  | zero => exact List.nodup_nil
  | succ k ih =>
    rw [runKeys_succ]
    refine List.Nodup.append (ih (by omega)) (levelIds_nodup config hv (by omega)) ?_
    intro x hx hx2
    rw [mem_runKeys] at hx
    obtain ⟨ℓ, hℓ, hxl⟩ := hx
    rw [mem_levelIds] at hxl hx2
    obtain ⟨i, hi, rfl⟩ := hxl
    obtain ⟨j, hj, heq⟩ := hx2
    have hL6 : config.max_levels ≤ 6 := hv.2.1
    have hcb1 := (levelCount_bounds config hv (show ℓ < config.max_levels by omega)).2
    have hcb2 := (levelCount_bounds config hv (show k < config.max_levels by omega)).2
    have := (sceneId_inj (by omega) (by omega) (by omega) (by omega) heq).1
    omega

/-- A scene id of a level not yet generated is not among the keys. -/
theorem sceneId_not_mem_runKeys (config : DiamondConfig) (hv : config.Valid)
    {k ℓ i : Nat} (hkℓ : k ≤ ℓ) (hℓ : ℓ < config.max_levels) (hi : i < 6) :
    generateCYOASceneId ℓ i ∉ runKeys config k := by
  intro hc
  rw [mem_runKeys] at hc
  obtain ⟨m, hm, hmem⟩ := hc
  rw [mem_levelIds] at hmem
  obtain ⟨j, hj, heq⟩ := hmem
  have hL6 : config.max_levels ≤ 6 := hv.2.1
  have hcb := (levelCount_bounds config hv (show m < config.max_levels by omega)).2
  have := (sceneId_inj (by omega) hi (by omega) (by omega) heq).1
  omega

theorem getD_of_get? {α : Type} {l : List α} {i : Nat} {v d : α}
    (h : l.get? i = some v) : l.getD i d = v := by
  rw [List.getD_eq_getElem?_getD, ← List.get?_eq_getElem?, h]
  rfl

theorem mem_jsSetDedupAcc (l : List String) : ∀ (seen : List String) (x : String),
    x ∈ jsSetDedupAcc seen l ↔ x ∈ l ∧ x ∉ seen := by
  induction l with
  | nil => intro seen x; simp [jsSetDedupAcc]
  | cons a l ih =>
    intro seen x
    by_cases h : a ∈ seen
    · rw [jsSetDedupAcc, if_pos h, ih]
      constructor
      · rintro ⟨hx, hs⟩
        exact ⟨List.mem_cons_of_mem _ hx, hs⟩
      · rintro ⟨hx, hs⟩
        rcases List.mem_cons.mp hx with rfl | hx
        · exact absurd h hs
        · exact ⟨hx, hs⟩
    · rw [jsSetDedupAcc, if_neg h]
      constructor
      · intro hx
        rcases List.mem_cons.mp hx with rfl | hx
        · exact ⟨List.mem_cons_self _ _, h⟩
        · rw [ih] at hx
          exact ⟨List.mem_cons_of_mem _ hx.1,
            fun hc => hx.2 (List.mem_cons_of_mem _ hc)⟩
      · rintro ⟨hx, hs⟩
        rcases List.mem_cons.mp hx with rfl | hx
        · exact List.mem_cons_self _ _
        · by_cases hxa : x = a
          · subst hxa; exact List.mem_cons_self _ _
          · refine List.mem_cons_of_mem _ ((ih (a :: seen) x).mpr ?_)
            exact ⟨hx, fun hc => (List.mem_cons.mp hc).elim hxa hs⟩

theorem nodup_jsSetDedupAcc (l : List String) : ∀ seen, (jsSetDedupAcc seen l).Nodup := by
  induction l with
  | nil => intro _; simp [jsSetDedupAcc]
  | cons a l ih =>
    intro seen
    by_cases h : a ∈ seen
    · rw [jsSetDedupAcc, if_pos h]; exact ih seen
    · rw [jsSetDedupAcc, if_neg h]
      refine List.nodup_cons.mpr ⟨fun hc => ?_, ih (a :: seen)⟩
      exact ((mem_jsSetDedupAcc l (a :: seen) a).mp hc).2 (List.mem_cons_self _ _)

theorem jsSetDedupAcc_eq_self (l : List String) : ∀ seen, l.Nodup →
    (∀ x ∈ l, x ∉ seen) → jsSetDedupAcc seen l = l := by
  induction l with
  | nil => intro seen _ _; rfl
  | cons a l ih =>
    intro seen hnd hdisj
    rw [jsSetDedupAcc, if_neg (hdisj a (List.mem_cons_self _ _))]
    congr 1
    refine ih (a :: seen) (List.nodup_cons.mp hnd).2 fun x hx hc => ?_
    rcases List.mem_cons.mp hc with rfl | hc2
    · exact (List.nodup_cons.mp hnd).1 hx
    · exact hdisj x (List.mem_cons_of_mem _ hx) hc2

theorem mem_jsSetDedup {l : List String} {x : String} : x ∈ jsSetDedup l ↔ x ∈ l := by
  rw [jsSetDedup, mem_jsSetDedupAcc]
  simp

theorem nodup_jsSetDedup (l : List String) : (jsSetDedup l).Nodup :=
  nodup_jsSetDedupAcc l []

theorem jsSetDedup_eq_self {l : List String} (h : l.Nodup) : jsSetDedup l = l :=
  jsSetDedupAcc_eq_self l [] h (by simp)

theorem jsSetDedup_ne_nil {l : List String} (h : l ≠ []) : jsSetDedup l ≠ [] := by
  obtain ⟨a, ha⟩ := List.exists_mem_of_ne_nil l h
  exact fun hc => by simpa [hc] using mem_jsSetDedup.mpr ha

/-! #### Incoming-scene topology (C6, C10) -/

/-- Bounds of the contracting-phase bucket: the range is never empty and
stays inside the previous level. -/
theorem bucket_le {i c p : Nat} (hc : 0 < c) (hp : 0 < p) (hi : i < c) :
    bucketStart i c p ≤ bucketEnd i c p ∧ bucketEnd i c p < p := by
  have hlt : i * p < p * c := by
    rw [mul_comm p c]
    exact mul_lt_mul_of_pos_right hi hp
  have hsp : bucketStart i c p < p := by
    rw [bucketStart]
    exact (Nat.div_lt_iff_lt_mul hc).mpr hlt
  refine ⟨le_min (by omega) ?_, lt_of_le_of_lt (min_le_left _ _) (by omega)⟩
  exact Nat.div_le_div_right (Nat.mul_le_mul_right p (Nat.le_succ i))

theorem contractBucket_ne_nil {i c : Nat} {prev : List String} (hc : 0 < c)
    (hp : prev ≠ []) (hi : i < c) : contractBucket i c prev ≠ [] := by
  have hp' : 0 < prev.length := List.length_pos.mpr hp
  obtain ⟨hse, _⟩ := bucket_le hc hp' hi
  simp only [contractBucket, ne_eq, List.map_eq_nil_iff]
  intro hcon
  have := congrArg List.length hcon
  rw [List.length_range'] at this
  simp at this
  omega

theorem contractBucket_nodup {i c : Nat} {prev : List String} (hnd : prev.Nodup)
    (hc : 0 < c) (hi : i < c) : (contractBucket i c prev).Nodup := by
  rcases eq_or_ne prev [] with rfl | hp
  · simp [contractBucket, bucketStart, bucketEnd, List.range']
  have hp' : 0 < prev.length := List.length_pos.mpr hp
  obtain ⟨hse, hep⟩ := bucket_le hc hp' hi
  refine List.Nodup.map_on ?_ (List.nodup_range' _ _)
  intro x hx y hy hxy
  rw [List.mem_range'_1] at hx hy
  have hxl : x < prev.length := by omega
  have hyl : y < prev.length := by omega
  rw [List.getD_eq_getElem prev "" hxl, List.getD_eq_getElem prev "" hyl] at hxy
  exact (List.Nodup.getElem_inj_iff hnd).mp hxy

theorem contractBucket_subset {i c : Nat} {prev : List String} (hc : 0 < c)
    (hp : prev ≠ []) (hi : i < c) : ∀ x ∈ contractBucket i c prev, x ∈ prev := by
  have hp' : 0 < prev.length := List.length_pos.mpr hp
  obtain ⟨hse, hep⟩ := bucket_le hc hp' hi
  intro x hx
  simp only [contractBucket, List.mem_map] at hx
  obtain ⟨q, hq, rfl⟩ := hx
  rw [List.mem_range'_1] at hq
  have hql : q < prev.length := by omega
  rw [List.getD_eq_getElem prev "" hql]
  exact List.getElem_mem hql

/-- `bucketStart` is the exact value of the spec's
`floor(index / (countAtLevel / prevCount))`. -/
theorem bucketStart_eq_floor (i c p : Nat) :
    (bucketStart i c p : ℤ) = ⌊(i : ℚ) / ((c : ℚ) / (p : ℚ))⌋ := by
  rw [div_div_eq_mul_div,
    show ((i : ℚ) * (p : ℚ)) = ((i * p : ℕ) : ℚ) by push_cast; ring,
    Rat.floor_natCast_div_natCast, bucketStart]
  push_cast
  ring

/-- `bucketEnd` is the exact value of the spec's
`min(prevCount - 1, floor((index + 1) / (countAtLevel / prevCount)))`. -/
theorem bucketEnd_eq_floor (i c p : Nat) (hp : 0 < p) :
    (bucketEnd i c p : ℤ) = min ((p : ℤ) - 1) ⌊((i : ℚ) + 1) / ((c : ℚ) / (p : ℚ))⌋ := by
  rw [div_div_eq_mul_div,
    show (((i : ℚ) + 1) * (p : ℚ)) = (((i + 1) * p : ℕ) : ℚ) by push_cast; ring,
    Rat.floor_natCast_div_natCast, bucketEnd]
  have h1 : (1 : ℕ) ≤ p := hp
  push_cast [Nat.cast_sub h1]
  ring_nf

/-- C10: in the contracting phase, for every call with `prevCount ≥ 1`,
`countAtLevel ≥ 1` and `index < countAtLevel`, the bucket satisfies
`startPrev ≤ endPrev ≤ prevCount - 1`, so the loop pushes at least one
predecessor id and the empty-bucket fallback is unreachable. -/
theorem C10_contract_bucket (index count : Nat) (prev : List String)
    (hp : prev ≠ []) (hc : 1 ≤ count) (hi : index < count) :
    bucketStart index count prev.length ≤ bucketEnd index count prev.length ∧
    bucketEnd index count prev.length ≤ prev.length - 1 ∧
    contractBucket index count prev ≠ [] := by
  have hp' : 0 < prev.length := List.length_pos.mpr hp
  obtain ⟨hse, hep⟩ := bucket_le hc hp' hi
  exact ⟨hse, by omega, contractBucket_ne_nil hc hp hi⟩

/-- Unfolding of `calculateIncomingScenes` for positive levels with a
non-empty previous level. -/
theorem calcIncoming_pos {level index count : Nat} {prev : List String}
    {config : DiamondConfig} {coin : Bool} (h0 : level ≠ 0) (hp : prev ≠ []) :
    calculateIncomingScenes level index count prev config coin =
      jsSetDedup (if level ≤ config.max_levels / 2 then
          expandIncoming index count prev coin
        else if (contractBucket index count prev).isEmpty then [prev.getD 0 ""]
        else contractBucket index count prev) := by
  rw [calculateIncomingScenes, if_neg h0,
    if_neg (fun hc => hp (List.length_eq_zero.mp hc))]

theorem expandIncoming_ne_nil (i c : Nat) (prev : List String) (coin : Bool) :
    expandIncoming i c prev coin ≠ [] := by
  simp only [expandIncoming]
  split_ifs <;> simp

theorem expandIncoming_nodup (i c : Nat) (prev : List String) (coin : Bool) :
    (expandIncoming i c prev coin).Nodup := by
  simp only [expandIncoming]
  split_ifs with h1 h2
  · simp
  · simp only [List.cons_append, List.nil_append, List.nodup_cons]
    exact ⟨fun hc => h2 (List.mem_singleton.mpr ((List.mem_singleton.mp hc).symm)),
      by simp, by simp⟩
  · simp

theorem expandIncoming_subset {i c : Nat} {prev : List String} {coin : Bool}
    (hp : prev ≠ []) (hc : 0 < c) (hi : i < c) :
    ∀ x ∈ expandIncoming i c prev coin, x ∈ prev := by
  have hp' : 0 < prev.length := List.length_pos.mpr hp
  have hprim : i * prev.length / c < prev.length :=
    (Nat.div_lt_iff_lt_mul hc).mpr (by rw [mul_comm prev.length c]
                                       exact mul_lt_mul_of_pos_right hi hp')
  have hmin : min (i * prev.length / c) (prev.length - 1) < prev.length := by omega
  have hsec : i * prev.length / c - 1 < prev.length := by omega
  intro x hx
  simp only [expandIncoming] at hx
  split_ifs at hx with h1 h2
  · rcases List.mem_singleton.mp hx with rfl
    rw [List.getD_eq_getElem prev "" hmin]
    exact List.getElem_mem hmin
  · rcases List.mem_append.mp hx with hx | hx
    · rcases List.mem_singleton.mp hx with rfl
      rw [List.getD_eq_getElem prev "" hmin]
      exact List.getElem_mem hmin
    · rcases List.mem_singleton.mp hx with rfl
      rw [List.getD_eq_getElem prev "" hsec]
      exact List.getElem_mem hsec
  · rcases List.mem_singleton.mp hx with rfl
    rw [List.getD_eq_getElem prev "" hmin]
    exact List.getElem_mem hmin

/-- C6: `calculateIncomingScenes` returns `[]` at level 0; for every level
`≥ 1` with a non-empty duplicate-free previous level and `index <
countAtLevel`, it returns (for both coin outcomes) a non-empty,
duplicate-free list of previous-level ids; in the contracting phase
(`level > max_levels / 2`) it returns exactly the bucket of ids at indices
`startPrev .. endPrev`; and `bucketStart`/`bucketEnd` are the exact values
of the spec's `floor(index / ratio)` and
`min(prevCount-1, floor((index+1) / ratio))` for
`ratio = countAtLevel / prevCount`. -/
theorem C6_calculateIncomingScenes (config : DiamondConfig) :
    (∀ index count prev coin,
      calculateIncomingScenes 0 index count prev config coin = []) ∧
    (∀ level index count (prev : List String) coin, 1 ≤ level → prev ≠ [] →
      prev.Nodup → index < count →
      calculateIncomingScenes level index count prev config coin ≠ [] ∧
      (calculateIncomingScenes level index count prev config coin).Nodup ∧
      (∀ x ∈ calculateIncomingScenes level index count prev config coin, x ∈ prev) ∧
      (config.max_levels / 2 < level →
        calculateIncomingScenes level index count prev config coin =
          contractBucket index count prev)) ∧
    (∀ index count prevCount : Nat,
      (bucketStart index count prevCount : ℤ) =
        ⌊(index : ℚ) / ((count : ℚ) / (prevCount : ℚ))⌋) ∧
    (∀ index count prevCount : Nat, 0 < prevCount →
      (bucketEnd index count prevCount : ℤ) =
        min ((prevCount : ℤ) - 1) ⌊((index : ℚ) + 1) / ((count : ℚ) / (prevCount : ℚ))⌋) := by
  refine ⟨?_, ?_, fun i c p => bucketStart_eq_floor i c p,
      fun i c p hp => bucketEnd_eq_floor i c p hp⟩
  · intro index count prev coin
    rw [calculateIncomingScenes, if_pos rfl]
  · intro level index count prev coin h1 hp hnd hic
    have h0 : level ≠ 0 := by omega
    have hc : 0 < count := by omega
    rw [calcIncoming_pos h0 hp]
    by_cases hmid : level ≤ config.max_levels / 2
    · rw [if_pos hmid]
      refine ⟨jsSetDedup_ne_nil (expandIncoming_ne_nil _ _ _ _), nodup_jsSetDedup _,
        fun x hx => expandIncoming_subset hp hc hic x (mem_jsSetDedup.mp hx),
        fun hcon => absurd hmid (by omega)⟩
    · rw [if_neg hmid]
      have hbne := contractBucket_ne_nil hc hp hic
      have hbnd := contractBucket_nodup hnd hc hic
      rw [if_neg (by simpa [List.isEmpty_iff] using hbne), jsSetDedup_eq_self hbnd]
      exact ⟨hbne, hbnd, contractBucket_subset hc hp hic, fun _ => rfl⟩

/-- Witness for C6: level 0 and a contracting-phase call. -/
theorem C6_calculateIncomingScenes_witness :
    calculateIncomingScenes 0 1 2 ["a", "b"] ⟨4, 4, 2, 3, 2⟩ false = [] ∧
    calculateIncomingScenes 3 1 3 ["a", "b", "c", "d"] ⟨4, 4, 2, 3, 2⟩ false =
      contractBucket 1 3 ["a", "b", "c", "d"] :=
  ⟨(C6_calculateIncomingScenes ⟨4, 4, 2, 3, 2⟩).1 1 2 ["a", "b"] false,
    (((C6_calculateIncomingScenes ⟨4, 4, 2, 3, 2⟩).2.1 3 1 3 ["a", "b", "c", "d"] false
      (by decide) (by decide) (by decide) (by decide)).2.2.2 (by decide))⟩

/-- Witness for C10. -/
theorem C10_contract_bucket_witness :
    (["a", "b", "c"] : List String) ≠ [] ∧ (1 : Nat) ≤ 2 ∧ (1 : Nat) < 2 ∧
    (bucketStart 1 2 3 ≤ bucketEnd 1 2 3 ∧ bucketEnd 1 2 3 ≤ 2 ∧
      contractBucket 1 2 ["a", "b", "c"] ≠ []) := by
  refine ⟨by decide, by decide, by decide, ?_⟩
  exact C10_contract_bucket 1 2 ["a", "b", "c"] (by decide) (by decide) (by decide)

/-! #### The scene retry loop (C8) -/

/-- Closed form of the retry loop: for some attempt count `a` with
`attempts < a ≤ MAX_SCENE_REGENERATIONS`, the loop returns attempt `a`'s
reply — the critic's tightened content exactly when the scene was reviewed
and attempt `a` was accepted, the raw narrative otherwise. -/
theorem sceneLoop_spec (O : Oracles) (sceneId : String) (review : Bool) (isEnding : Bool) :
    ∀ fuel attempts, 0 < fuel → fuel + attempts = MAX_SCENE_REGENERATIONS →
    ∃ a, attempts < a ∧ a ≤ MAX_SCENE_REGENERATIONS ∧
      sceneLoop O sceneId review isEnding fuel attempts =
        { attempts := a,
          content :=
            if review = true ∧ (O.critic sceneId a).decision = EditorDecision.ACCEPT
            then jsOr (O.critic sceneId a).edited_content (O.gen sceneId a).narrative
            else (O.gen sceneId a).narrative,
          decisions := mkDecisions sceneId (O.gen sceneId a).decisions } := by
  intro fuel
  induction fuel with
  | zero => intro attempts h; exact absurd h (lt_irrefl 0)
  | succ fuel ih =>
    intro attempts hpos hsum
    simp only [sceneLoop]
    by_cases hretry : isEnding = false ∧
        mkDecisions sceneId (O.gen sceneId (attempts + 1)).decisions = [] ∧
        attempts + 1 < MAX_SCENE_REGENERATIONS
    · rw [if_pos hretry]
      obtain ⟨a, h1, h2, h3⟩ := ih (attempts + 1) (by omega) (by omega)
      exact ⟨a, by omega, h2, h3⟩
    · rw [if_neg hretry]
      by_cases hrev : review = true
      · rw [if_pos hrev]
        cases hdec : (O.critic sceneId (attempts + 1)).decision with
        | ACCEPT =>
          refine ⟨attempts + 1, by omega, by omega, ?_⟩
          simp [hdec, hrev]
        | REWRITE =>
          by_cases hlt : attempts + 1 < MAX_SCENE_REGENERATIONS
          · obtain ⟨a, h1, h2, h3⟩ := ih (attempts + 1) (by omega) (by omega)
            refine ⟨a, by omega, h2, ?_⟩
            simpa [hlt] using h3
          · refine ⟨attempts + 1, by omega, by omega, ?_⟩
            simp [hlt, hdec]
        | REGENERATE =>
          by_cases hlt : attempts + 1 < MAX_SCENE_REGENERATIONS
          · obtain ⟨a, h1, h2, h3⟩ := ih (attempts + 1) (by omega) (by omega)
            refine ⟨a, by omega, h2, ?_⟩
            simpa [hlt] using h3
          · refine ⟨attempts + 1, by omega, by omega, ?_⟩
            simp [hlt, hdec]
      · rw [if_neg hrev]
        have hrev' : review = false := by revert hrev; cases review <;> simp
        refine ⟨attempts + 1, by omega, by omega, ?_⟩
        simp [hrev']

/-- C8: for every oracle sequence, `generateScene` makes between 1 and
`MAX_SCENE_REGENERATIONS = 3` generation calls and terminates with a
`Scene`; when the critic never returns ACCEPT for this scene, the returned
content is the raw narrative of the most recent generation attempt. -/
theorem C8_scene_budget (O : Oracles) (mode : GenerationMode)
    (state : StoryGenerationState) (sceneId : String) (sceneType : SceneType)
    (level : Nat) (incoming : List String) (isEnding : Bool) :
    1 ≤ sceneAttempts O mode sceneId sceneType isEnding ∧
    sceneAttempts O mode sceneId sceneType isEnding ≤ MAX_SCENE_REGENERATIONS ∧
    ((∀ a, (O.critic sceneId a).decision ≠ EditorDecision.ACCEPT) →
      (generateScene O mode state sceneId sceneType level incoming isEnding).content =
        (O.gen sceneId (sceneAttempts O mode sceneId sceneType isEnding)).narrative) := by
  obtain ⟨a, h1, h2, h3⟩ := sceneLoop_spec O sceneId
    (decide (mode = GenerationMode.polished) || decide (sceneType = SceneType.intro) || isEnding)
    isEnding MAX_SCENE_REGENERATIONS 0 (by decide) (by omega)
  have hatt : sceneAttempts O mode sceneId sceneType isEnding = a := by
    rw [sceneAttempts, h3]
  have hcon : (generateScene O mode state sceneId sceneType level incoming isEnding).content =
      (sceneLoop O sceneId
        (decide (mode = GenerationMode.polished) || decide (sceneType = SceneType.intro)
          || isEnding) isEnding MAX_SCENE_REGENERATIONS 0).content := rfl
  refine ⟨by omega, by omega, fun hnoacc => ?_⟩
  rw [hcon, h3, hatt]
  exact if_neg (fun hc => hnoacc a hc.2)

/-- Witness for C8 with a critic that never accepts. -/
theorem C8_scene_budget_witness :
    1 ≤ sceneAttempts oracleNoChoices GenerationMode.draft "s" SceneType.intro false ∧
    sceneAttempts oracleNoChoices GenerationMode.draft "s" SceneType.intro false ≤
      MAX_SCENE_REGENERATIONS ∧
    (generateScene oracleNoChoices GenerationMode.draft
        (createStoryGenerationState ⟨3, 2, 2, 3, 2⟩) "s" SceneType.intro 0 [] false).content =
      (oracleNoChoices.gen "s"
        (sceneAttempts oracleNoChoices GenerationMode.draft "s" SceneType.intro false)).narrative := by
  obtain ⟨h1, h2, h3⟩ := C8_scene_budget oracleNoChoices GenerationMode.draft
    (createStoryGenerationState ⟨3, 2, 2, 3, 2⟩) "s" SceneType.intro 0 [] false
  exact ⟨h1, h2, h3 (fun _ => by simp [oracleNoChoices])⟩

/-- The fields of the scene `generateScene` assembles: the identity fields
are the arguments, and the decision list is built from one of the (at most
three) generation replies. -/
theorem generateScene_fields (O : Oracles) (mode : GenerationMode)
    (state : StoryGenerationState) (sceneId : String) (sceneType : SceneType)
    (level : Nat) (incoming : List String) (isEnding : Bool) :
    (generateScene O mode state sceneId sceneType level incoming isEnding).id = sceneId ∧
    (generateScene O mode state sceneId sceneType level incoming isEnding).level = level ∧
    (generateScene O mode state sceneId sceneType level incoming isEnding).is_ending
      = isEnding ∧
    (generateScene O mode state sceneId sceneType level incoming
      isEnding).previous_scene_ids = incoming ∧
    ∃ a, 1 ≤ a ∧ a ≤ MAX_SCENE_REGENERATIONS ∧
      (generateScene O mode state sceneId sceneType level incoming isEnding).decisions =
        mkDecisions sceneId (O.gen sceneId a).decisions := by
  obtain ⟨a, h1, h2, h3⟩ := sceneLoop_spec O sceneId
    (decide (mode = GenerationMode.polished) || decide (sceneType = SceneType.intro)
      || isEnding) isEnding MAX_SCENE_REGENERATIONS 0 (by decide) (by omega)
  refine ⟨rfl, rfl, rfl, rfl, a, by omega, h2, ?_⟩
  have hd : (generateScene O mode state sceneId sceneType level incoming
      isEnding).decisions =
      (sceneLoop O sceneId
        (decide (mode = GenerationMode.polished) || decide (sceneType = SceneType.intro)
          || isEnding) isEnding MAX_SCENE_REGENERATIONS 0).decisions := rfl
  rw [hd, h3]

/-! #### The run induction -/

theorem runInv_init (O : Oracles) (config : DiamondConfig) :
    RunInv O config 0
      { createStoryGenerationState config with world_rules := some O.world } := by
  refine ⟨rfl, ?_, ?_, ?_, rfl, ?_⟩
  · show (List.replicate config.max_levels ([] : List String)).length = _
    rw [List.length_replicate]
  · intro ℓ hℓ
    omega
  · intro ℓ _ hℓ
    show (List.replicate config.max_levels ([] : List String)).get? ℓ = some []
    rw [List.get?_eq_getElem?, List.getElem?_replicate, if_pos hℓ]
  · intro ℓ hℓ
    omega

theorem runInv_to_inner {O : Oracles} {config : DiamondConfig} {k : Nat}
    {st : StoryGenerationState} (inv : RunInv O config k st)
    (hk : k < config.max_levels) : InnerInv O config k 0 st := by
  refine ⟨inv.cfg_eq, inv.sbl_len, inv.sbl_done, ?_, ?_, ?_, inv.scene_at, ?_⟩
  · simpa using inv.sbl_todo k (le_refl k) hk
  · intro m hm hmL
    exact inv.sbl_todo m (by omega) hmL
  · rw [inv.keys_eq]
    simp
  · intro i hi
    omega

theorem inner_to_run_one {O : Oracles} {config : DiamondConfig}
    {st : StoryGenerationState} (inv : InnerInv O config 0 (levelCount config 0) st) :
    RunInv O config 1 st := by
  refine ⟨inv.cfg_eq, inv.sbl_len, ?_, ?_, ?_, ?_⟩
  · intro ℓ hℓ
    have h0 : ℓ = 0 := by omega
    subst h0
    exact inv.sbl_cur
  · intro m hm hmL
    exact inv.sbl_todo m (by omega) hmL
  · rw [inv.keys_eq, runKeys_succ]
    rfl
  · intro ℓ hℓ i hi
    have h0 : ℓ = 0 := by omega
    subst h0
    obtain ⟨sc, hget, hbase, hfresh⟩ := inv.scene_new i hi
    exact ⟨sc, hget, hbase, fun hc => absurd hc (by omega), fun _ => hfresh⟩

/-- One scene-synthesis step of `generateLevel` preserves the inner
invariant, extending level `ℓ` by the fresh scene `(ℓ, j)`. -/
theorem innerStep (O : Oracles) (mode : GenerationMode) {config : DiamondConfig}
    (hv : config.Valid) {ℓ j : Nat} (hℓ : ℓ < config.max_levels)
    (hj : j < levelCount config ℓ) (count : Nat) (prevIds : List String)
    {st : StoryGenerationState} (inv : InnerInv O config ℓ j st) :
    InnerInv O config ℓ (j + 1)
      (generateLevelStep O mode ℓ count (decide (ℓ = config.max_levels - 1))
        prevIds st j) := by
  have hL6 : config.max_levels ≤ 6 := hv.2.1
  have hcnt6 := (levelCount_bounds config hv hℓ).2
  have hj6 : j < 6 := by omega
  have hℓ6 : ℓ < 6 := by omega
  obtain ⟨hid, hlev, hend, hprevf, a, ha1, ha2, hdec⟩ :=
    generateScene_fields O mode st (generateCYOASceneId ℓ j)
      (if ℓ = 0 then SceneType.intro
        else if (decide (ℓ = config.max_levels - 1)) = true then SceneType.ending
        else SceneType.branch) ℓ
      (calculateIncomingScenes ℓ j count prevIds st.diamond_config (O.coin ℓ j))
      (decide (ℓ = config.max_levels - 1))
  have hscenes : (generateLevelStep O mode ℓ count (decide (ℓ = config.max_levels - 1))
        prevIds st j).scenes =
      scenesInsert st.scenes (generateCYOASceneId ℓ j)
        (generateScene O mode st (generateCYOASceneId ℓ j)
          (if ℓ = 0 then SceneType.intro
            else if (decide (ℓ = config.max_levels - 1)) = true then SceneType.ending
            else SceneType.branch) ℓ
          (calculateIncomingScenes ℓ j count prevIds st.diamond_config (O.coin ℓ j))
          (decide (ℓ = config.max_levels - 1))) := rfl
  have hsbl : (generateLevelStep O mode ℓ count (decide (ℓ = config.max_levels - 1))
        prevIds st j).scenes_by_level =
      st.scenes_by_level.set ℓ
        ((st.scenes_by_level.getD ℓ []) ++ [generateCYOASceneId ℓ j]) := rfl
  have hcfg : (generateLevelStep O mode ℓ count (decide (ℓ = config.max_levels - 1))
        prevIds st j).diamond_config = st.diamond_config := rfl
  have hfreshkey : generateCYOASceneId ℓ j ∉ scenesKeys st.scenes := by
    rw [inv.keys_eq]
    intro hc
    rcases List.mem_append.mp hc with hc | hc
    · exact sceneId_not_mem_runKeys config hv (le_refl ℓ) hℓ hj6 hc
    · rw [List.mem_map] at hc
      obtain ⟨i, hi, heq⟩ := hc
      rw [List.mem_range] at hi
      have := (sceneId_inj hℓ6 (by omega) hℓ6 hj6 heq).2
      omega
  have hcurD : st.scenes_by_level.getD ℓ [] =
      (List.range j).map (generateCYOASceneId ℓ) := getD_of_get? inv.sbl_cur
  have hlen : ℓ < st.scenes_by_level.length := by rw [inv.sbl_len]; exact hℓ
  refine ⟨hcfg ▸ inv.cfg_eq, ?_, ?_, ?_, ?_, ?_, ?_, ?_⟩
  · rw [hsbl, List.length_set]
    exact inv.sbl_len
  · intro m hm
    rw [hsbl, List.get?_eq_getElem?,
      List.getElem?_set_ne (show ℓ ≠ m by omega), ← List.get?_eq_getElem?]
    exact inv.sbl_done m hm
  · rw [hsbl, List.get?_eq_getElem?, List.getElem?_set_self hlen, hcurD,
      List.range_succ, List.map_append]
    rfl
  · intro m hm hmL
    rw [hsbl, List.get?_eq_getElem?,
      List.getElem?_set_ne (show ℓ ≠ m by omega), ← List.get?_eq_getElem?]
    exact inv.sbl_todo m hm hmL
  · rw [hscenes, scenesKeys_insert_not_mem _ hfreshkey, inv.keys_eq,
      List.append_assoc, List.range_succ, List.map_append]
    rfl
  · intro m hm i hi
    obtain ⟨sc, hget, hprops⟩ := inv.scene_old m hm i hi
    refine ⟨sc, ?_, hprops⟩
    rw [hscenes, scenesGet_insert_ne]
    · exact hget
    · intro heq
      have hcm := (levelCount_bounds config hv (show m < config.max_levels by omega)).2
      have := (sceneId_inj (by omega) (by omega) hℓ6 hj6 heq).1
      omega
  · intro i hi
    rcases Nat.lt_or_ge i j with hij | hij
    · obtain ⟨sc, hget, hbase, hfresh⟩ := inv.scene_new i hij
      refine ⟨sc, ?_, hbase, hfresh⟩
      rw [hscenes, scenesGet_insert_ne]
      · exact hget
      · intro heq
        have := (sceneId_inj hℓ6 (by omega) hℓ6 hj6 heq).2
        omega
    · have hij' : i = j := by omega
      subst hij'
      refine ⟨_, by rw [hscenes]; exact scenesGet_insert_self _ _ _, ⟨hid, hlev, ?_, ?_⟩, ?_⟩
      · rw [hend]
        exact decide_eq_true_iff
      · exact ⟨a, ha1, ha2, by rw [hdec, mkDecisions_length]⟩
      · intro d hd
        rw [hdec] at hd
        exact mkDecisions_fresh _ _ d hd



/-- The whole scene loop of `generateLevel` establishes the inner invariant
at the full level count. -/
theorem innerLoop (O : Oracles) (mode : GenerationMode) {config : DiamondConfig}
    (hv : config.Valid) {ℓ : Nat} (hℓ : ℓ < config.max_levels)
    (count : Nat) (prevIds : List String) {st : StoryGenerationState}
    (inv : InnerInv O config ℓ 0 st) :
    ∀ j, j ≤ levelCount config ℓ →
      InnerInv O config ℓ j ((List.range j).foldl
        (generateLevelStep O mode ℓ count (decide (ℓ = config.max_levels - 1)) prevIds)
        st) := by
  intro j
  induction j with
  | zero => intro _; simpa using inv
  | succ j ih =>
    intro hj
    rw [List.range_succ, List.foldl_append, List.foldl_cons, List.foldl_nil]
    exact innerStep O mode hv hℓ (by omega) count prevIds (ih (by omega))

/-- The value `connectDecisions` assigns is always one of the target
level's ids. -/
theorem connect_leads_to_mem {targets : List String} (hne : targets ≠ [])
    (leadingTo : List String) (hsub : ∀ x ∈ leadingTo, x ∈ targets) (i : Nat) :
    (match leadingTo.get? (i % leadingTo.length) with
      | some t => if t = "" then targets.getD 0 "" else t
      | none => targets.getD 0 "") ∈ targets := by
  have hl : 0 < targets.length := List.length_pos.mpr hne
  have h0 : targets.getD 0 "" ∈ targets := by
    rw [List.getD_eq_getElem targets "" hl]
    exact List.getElem_mem hl
  cases hget : leadingTo.get? (i % leadingTo.length) with
  | none => exact h0
  | some t =>
    show (if t = "" then targets.getD 0 "" else t) ∈ targets
    by_cases ht : t = ""
    · rw [if_pos ht]
      exact h0
    · rw [if_neg ht]
      exact hsub t (List.get?_mem hget)

/-- One source-rewiring step of `connectDecisions` preserves the connection
invariant. -/
theorem connSource_step (O : Oracles) {config : DiamondConfig} (hv : config.Valid)
    {ℓ m : Nat} (h1 : 1 ≤ ℓ) (hℓ : ℓ < config.max_levels)
    (hm : m < levelCount config (ℓ - 1)) {st : StoryGenerationState}
    (inv : ConnInv O config ℓ m st) :
    ConnInv O config ℓ (m + 1)
      (connectSource (levelIds config ℓ) st (generateCYOASceneId (ℓ - 1) m)) := by
  have hL6 : config.max_levels ≤ 6 := hv.2.1
  have hsrc6 := (levelCount_bounds config hv (show ℓ - 1 < config.max_levels by omega)).2
  have htgt6 := (levelCount_bounds config hv hℓ).2
  have hm6 : m < 6 := by omega
  have hsℓ6 : ℓ - 1 < 6 := by omega
  have hℓ6 : ℓ < 6 := by omega
  obtain ⟨sc, hget, hbase, hconn, hfresh⟩ := inv.scene_src m hm
  simp only [connectSource, hget]
  by_cases hdec : sc.decisions = []
  · rw [if_pos hdec]
    refine ⟨inv.cfg_eq, inv.sbl_len, inv.sbl_done, inv.sbl_todo, inv.keys_eq,
      inv.scene_old, ?_, inv.scene_tgt⟩
    intro i hi
    obtain ⟨sc2, hget2, hbase2, hconn2, hfresh2⟩ := inv.scene_src i hi
    refine ⟨sc2, hget2, hbase2, ?_, fun hmi => hfresh2 (by omega)⟩
    intro him
    rcases Nat.lt_or_ge i m with h | h
    · exact hconn2 h
    · have hieq : i = m := by omega
      subst hieq
      have hsc : sc2 = sc := by
        rw [hget] at hget2
        exact (Option.some_inj.mp hget2).symm
      subst hsc
      intro d hd
      rw [hdec] at hd
      simp at hd
  · rw [if_neg hdec]
    have hkeymem : generateCYOASceneId (ℓ - 1) m ∈ scenesKeys st.scenes :=
      mem_keys_of_scenesGet hget
    have htgtne : levelIds config ℓ ≠ [] := levelIds_ne_nil config hv hℓ
    refine ⟨inv.cfg_eq, inv.sbl_len, inv.sbl_done, inv.sbl_todo, ?_, ?_, ?_, ?_⟩
    · show scenesKeys (scenesInsert st.scenes _ _) = _
      rw [scenesKeys_insert_mem _ hkeymem]
      exact inv.keys_eq
    · intro mm hmm i hi
      obtain ⟨sc2, hget2, hprops⟩ := inv.scene_old mm hmm i hi
      refine ⟨sc2, ?_, hprops⟩
      show scenesGet (scenesInsert st.scenes _ _) _ = _
      rw [scenesGet_insert_ne]
      · exact hget2
      · intro heq
        have hcm := (levelCount_bounds config hv
          (show mm < config.max_levels by omega)).2
        have := (sceneId_inj (by omega) (by omega) hsℓ6 hm6 heq).1
        omega
    · intro i hi
      rcases Nat.lt_or_ge i m with hlt | hge
      · obtain ⟨sc2, hget2, hbase2, hconn2, hfresh2⟩ := inv.scene_src i hi
        refine ⟨sc2, ?_, hbase2, fun _ => hconn2 hlt, fun hc => absurd hc (by omega)⟩
        show scenesGet (scenesInsert st.scenes _ _) _ = _
        rw [scenesGet_insert_ne]
        · exact hget2
        · intro heq
          have := (sceneId_inj hsℓ6 (by omega) hsℓ6 hm6 heq).2
          omega
      · rcases Nat.lt_or_ge m i with hlt2 | hge2
        · obtain ⟨sc2, hget2, hbase2, hconn2, hfresh2⟩ := inv.scene_src i hi
          refine ⟨sc2, ?_, hbase2, fun hc => absurd hc (by omega),
            fun _ => hfresh2 (by omega)⟩
          show scenesGet (scenesInsert st.scenes _ _) _ = _
          rw [scenesGet_insert_ne]
          · exact hget2
          · intro heq
            have := (sceneId_inj hsℓ6 (by omega) hsℓ6 hm6 heq).2
            omega
        · have hieq : i = m := by omega
          subst hieq
          refine ⟨_, scenesGet_insert_self _ _ _, ⟨?_, ?_, ?_, ?_⟩, ?_, ?_⟩
          · exact hbase.id_eq
          · exact hbase.level_eq
          · exact hbase.ending_iff
          · obtain ⟨a, ha1, ha2, halen⟩ := hbase.dec_len
            refine ⟨a, ha1, ha2, ?_⟩
            show (jsMapIdx _ sc.decisions).length = _
            rw [jsMapIdx_length]
            exact halen
          · intro _
            have hℓ1 : ℓ - 1 + 1 = ℓ := by omega
            show sceneConnected config (ℓ - 1) _
            rw [sceneConnected, hℓ1]
            refine forall_mem_jsMapIdx _ _ fun i2 d => ?_
            exact connect_leads_to_mem htgtne _
              (fun x hx => List.mem_of_mem_filter hx) i2
          · intro hc
            exact absurd hc (by omega)
    · intro i hi
      obtain ⟨sc2, hget2, hbase2, hfresh2⟩ := inv.scene_tgt i hi
      refine ⟨sc2, ?_, hbase2, hfresh2⟩
      show scenesGet (scenesInsert st.scenes _ _) _ = _
      rw [scenesGet_insert_ne]
      · exact hget2
      · intro heq
        have := (sceneId_inj hℓ6 (by omega) hsℓ6 hm6 heq).1
        omega

theorem connLoop (O : Oracles) {config : DiamondConfig} (hv : config.Valid)
    {ℓ : Nat} (h1 : 1 ≤ ℓ) (hℓ : ℓ < config.max_levels)
    {st : StoryGenerationState} (inv : ConnInv O config ℓ 0 st) :
    ∀ m, m ≤ levelCount config (ℓ - 1) →
      ConnInv O config ℓ m
        ((List.range m).foldl
          (fun s i => connectSource (levelIds config ℓ) s (generateCYOASceneId (ℓ - 1) i))
          st) := by
  intro m
  induction m with
  | zero => intro _; simpa using inv
  | succ m ih =>
    intro hm
    rw [List.range_succ, List.foldl_append, List.foldl_cons, List.foldl_nil]
    exact connSource_step O hv h1 hℓ (by omega) (ih (by omega))

/-- `connectDecisions` turns the completed inner invariant of level `ℓ` into
the run invariant for `ℓ + 1` levels. -/
theorem connect_runInv (O : Oracles) {config : DiamondConfig} (hv : config.Valid)
    {ℓ : Nat} (h1 : 1 ≤ ℓ) (hℓ : ℓ < config.max_levels)
    {st : StoryGenerationState} (inv : InnerInv O config ℓ (levelCount config ℓ) st) :
    RunInv O config (ℓ + 1) (connectDecisions st ℓ) := by
  have hsrcq : st.scenes_by_level.get? (ℓ - 1) = some (levelIds config (ℓ - 1)) :=
    inv.sbl_done _ (by omega)
  have htgtq : st.scenes_by_level.get? ℓ = some (levelIds config ℓ) := inv.sbl_cur
  have hbase : ConnInv O config ℓ 0 st := by
    refine ⟨inv.cfg_eq, inv.sbl_len, ?_, inv.sbl_todo, ?_, ?_, ?_, inv.scene_new⟩
    · intro mm hmm
      rcases Nat.lt_or_ge mm ℓ with h | h
      · exact inv.sbl_done mm h
      · have : mm = ℓ := by omega
        subst this
        exact inv.sbl_cur
    · rw [inv.keys_eq, runKeys_succ]
      rfl
    · intro mm hmm i hi
      obtain ⟨sc, hget, hbase2, hconn, hfresh⟩ := inv.scene_old mm (by omega) i hi
      exact ⟨sc, hget, hbase2, hconn hmm⟩
    · intro i hi
      obtain ⟨sc, hget, hbase2, hconn, hfresh⟩ := inv.scene_old (ℓ - 1) (by omega) i hi
      exact ⟨sc, hget, hbase2, fun hc => absurd hc (by omega),
        fun _ => hfresh (by omega)⟩
  have hfin := connLoop O hv h1 hℓ hbase (levelCount config (ℓ - 1)) (le_refl _)
  have hred : connectDecisions st ℓ =
      (List.range (levelCount config (ℓ - 1))).foldl
        (fun s i => connectSource (levelIds config ℓ) s (generateCYOASceneId (ℓ - 1) i))
        st := by
    rw [connectDecisions, hsrcq, htgtq]
    show List.foldl (connectSource (levelIds config ℓ)) st
        (List.map (generateCYOASceneId (ℓ - 1))
          (List.range (levelCount config (ℓ - 1)))) = _
    rw [List.foldl_map]
  rw [hred]
  refine ⟨hfin.cfg_eq, hfin.sbl_len, ?_, ?_, hfin.keys_eq, ?_⟩
  · intro mm hmm
    exact hfin.sbl_done mm (by omega)
  · intro mm hmm hmmL
    exact hfin.sbl_todo mm (by omega) hmmL
  · intro mm hmm i hi
    rcases Nat.lt_or_ge (mm + 1) ℓ with hc | hc
    · obtain ⟨sc, hget, hbase2, hconn⟩ := hfin.scene_old mm hc i hi
      exact ⟨sc, hget, hbase2, fun _ => hconn, fun hk => absurd hk (by omega)⟩
    · rcases Nat.lt_or_ge mm ℓ with hc2 | hc2
      · have : mm = ℓ - 1 := by omega
        subst this
        obtain ⟨sc, hget, hbase2, hconn, hfresh⟩ := hfin.scene_src i hi
        exact ⟨sc, hget, hbase2, fun _ => hconn hi, fun hk => absurd hk (by omega)⟩
      · have : mm = ℓ := by omega
        subst this
        obtain ⟨sc, hget, hbase2, hfresh⟩ := hfin.scene_tgt i hi
        exact ⟨sc, hget, hbase2, fun hk => absurd hk (by omega), fun _ => hfresh⟩

/-- `generateLevel` advances the run invariant by one level. -/
theorem generateLevel_runInv (O : Oracles) (mode : GenerationMode)
    {config : DiamondConfig} (hv : config.Valid) {k : Nat}
    (hk : k < config.max_levels) {st : StoryGenerationState}
    (inv : RunInv O config k st) :
    RunInv O config (k + 1)
      (generateLevel O mode st k (levelCount config k)
        (decide (k = config.max_levels - 1))) := by
  have hgen : generateLevel O mode st k (levelCount config k)
        (decide (k = config.max_levels - 1)) =
      (if 0 < k then
        connectDecisions
          ((List.range (levelCount config k)).foldl
            (generateLevelStep O mode k (levelCount config k)
              (decide (k = config.max_levels - 1))
              (if 0 < k then st.scenes_by_level.getD (k - 1) [] else []))
            st) k
      else
        (List.range (levelCount config k)).foldl
          (generateLevelStep O mode k (levelCount config k)
            (decide (k = config.max_levels - 1))
            (if 0 < k then st.scenes_by_level.getD (k - 1) [] else []))
          st) := rfl
  have hinner := innerLoop O mode hv hk (levelCount config k)
    (if 0 < k then st.scenes_by_level.getD (k - 1) [] else [])
    (runInv_to_inner inv hk) (levelCount config k) (le_refl _)
  rw [hgen]
  by_cases h0 : 0 < k
  · rw [if_pos h0]
    exact connect_runInv O hv h0 hk hinner
  · rw [if_neg h0]
    have hk0 : k = 0 := by omega
    subst hk0
    exact inner_to_run_one hinner

theorem foldl_id {σ α : Type} (f : σ → α → σ) (s : σ) (l : List α)
    (h : ∀ x ∈ l, f s x = s) : List.foldl f s l = s := by
  induction l with
  | nil => rfl
  | cons a l ih =>
    rw [List.foldl_cons, h a (List.mem_cons_self _ _)]
    exact ih (fun x hx => h x (List.mem_cons_of_mem _ hx))

/-- `run` on a fresh state is `validatePaths` after the level fold. -/
theorem run_eq (O : Oracles) (mode : GenerationMode) (config : DiamondConfig) :
    run O mode (createStoryGenerationState config) =
      validatePaths
        ((List.range config.max_levels).foldl
          (fun st level =>
            generateLevel O mode st level
              (((calculateDiamondShape config).getD level 0).toNat)
              (decide (level = st.diamond_config.max_levels - 1)))
          { createStoryGenerationState config with world_rules := some O.world }) := rfl

/-- The level-by-level fold of `run` establishes the run invariant at
`max_levels`. -/
theorem runFold_runInv (O : Oracles) (mode : GenerationMode) (config : DiamondConfig)
    (hv : config.Valid) :
    RunInv O config config.max_levels
      ((List.range config.max_levels).foldl
        (fun st level =>
          generateLevel O mode st level
            (((calculateDiamondShape config).getD level 0).toNat)
            (decide (level = st.diamond_config.max_levels - 1)))
        { createStoryGenerationState config with world_rules := some O.world }) := by
  suffices h : ∀ k, k ≤ config.max_levels → RunInv O config k
      ((List.range k).foldl
        (fun st level =>
          generateLevel O mode st level
            (((calculateDiamondShape config).getD level 0).toNat)
            (decide (level = st.diamond_config.max_levels - 1)))
        { createStoryGenerationState config with world_rules := some O.world }) by
    exact h _ (le_refl _)
  intro k
  induction k with
  | zero => intro _; simpa using runInv_init O config
  | succ k ih =>
    intro hk
    rw [List.range_succ, List.foldl_append, List.foldl_cons, List.foldl_nil]
    have invk := ih (by omega)
    have step := generateLevel_runInv O mode hv (show k < config.max_levels by omega) invk
    have hcfg := invk.cfg_eq
    rw [hcfg]
    exact step

/-- The run invariant at `max_levels` yields the pre-clear invariant. -/
theorem runInv_to_clear (O : Oracles) {config : DiamondConfig} (hv : config.Valid)
    {st : StoryGenerationState} (inv : RunInv O config config.max_levels st) :
    ClearInv O config 0 st := by
  have hL : 3 ≤ config.max_levels := hv.1
  refine ⟨inv.cfg_eq, inv.sbl_len, fun ℓ hℓ => inv.sbl_done ℓ hℓ, inv.keys_eq, ?_, ?_⟩
  · intro ℓ hℓ i hi
    obtain ⟨sc, hget, hbase, hconn, hfresh⟩ := inv.scene_at ℓ (by omega) i hi
    exact ⟨sc, hget, hbase, hconn (by omega)⟩
  · intro i hi
    obtain ⟨sc, hget, hbase, hconn, hfresh⟩ := inv.scene_at (config.max_levels - 1)
      (by omega) i hi
    exact ⟨sc, hget, hbase.id_eq, hbase.level_eq, fun hc => absurd hc (by omega),
      fun _ => ⟨hbase, hfresh (by omega)⟩⟩

/-- One ending-clearing step of `validatePaths` preserves the clear
invariant. -/
theorem clearStep (O : Oracles) {config : DiamondConfig} (hv : config.Valid)
    {m : Nat} (hm : m < levelCount config (config.max_levels - 1))
    {st : StoryGenerationState} (inv : ClearInv O config m st) :
    ClearInv O config (m + 1)
      (clearEnding st (generateCYOASceneId (config.max_levels - 1) m)) := by
  have hL : 3 ≤ config.max_levels := hv.1
  have hL6 : config.max_levels ≤ 6 := hv.2.1
  have hlast6 : config.max_levels - 1 < 6 := by omega
  have hcnt6 := (levelCount_bounds config hv
    (show config.max_levels - 1 < config.max_levels by omega)).2
  have hm6 : m < 6 := by omega
  obtain ⟨sc, hget, hid, hlev, hclr, hunclr⟩ := inv.scene_last m hm
  simp only [clearEnding, hget]
  refine ⟨inv.cfg_eq, inv.sbl_len, inv.sbl_all, ?_, ?_, ?_⟩
  · show scenesKeys (scenesInsert st.scenes _ _) = _
    rw [scenesKeys_insert_mem _ (mem_keys_of_scenesGet hget)]
    exact inv.keys_eq
  · intro ℓ hℓ i hi
    obtain ⟨sc2, hget2, hprops⟩ := inv.scene_nonlast ℓ hℓ i hi
    refine ⟨sc2, ?_, hprops⟩
    show scenesGet (scenesInsert st.scenes _ _) _ = _
    rw [scenesGet_insert_ne]
    · exact hget2
    · intro heq
      have hcℓ := (levelCount_bounds config hv (show ℓ < config.max_levels by omega)).2
      have := (sceneId_inj (by omega) (by omega) hlast6 hm6 heq).1
      omega
  · intro i hi
    rcases Nat.lt_or_ge i m with hlt | hge
    · obtain ⟨sc2, hget2, hid2, hlev2, hclr2, hunclr2⟩ := inv.scene_last i hi
      refine ⟨sc2, ?_, hid2, hlev2, fun _ => hclr2 hlt, fun hc => absurd hc (by omega)⟩
      show scenesGet (scenesInsert st.scenes _ _) _ = _
      rw [scenesGet_insert_ne]
      · exact hget2
      · intro heq
        have := (sceneId_inj hlast6 (by omega) hlast6 hm6 heq).2
        omega
    · rcases Nat.lt_or_ge m i with hlt2 | hge2
      · obtain ⟨sc2, hget2, hid2, hlev2, hclr2, hunclr2⟩ := inv.scene_last i hi
        refine ⟨sc2, ?_, hid2, hlev2, fun hc => absurd hc (by omega),
          fun _ => hunclr2 (by omega)⟩
        show scenesGet (scenesInsert st.scenes _ _) _ = _
        rw [scenesGet_insert_ne]
        · exact hget2
        · intro heq
          have := (sceneId_inj hlast6 (by omega) hlast6 hm6 heq).2
          omega
      · have hieq : i = m := by omega
        subst hieq
        refine ⟨_, scenesGet_insert_self _ _ _, ?_, ?_, ?_, ?_⟩
        · exact hid
        · exact hlev
        · intro _
          exact ⟨rfl, rfl⟩
        · intro hc
          exact absurd hc (by omega)

theorem clearLoop (O : Oracles) {config : DiamondConfig} (hv : config.Valid)
    {st : StoryGenerationState} (inv : ClearInv O config 0 st) :
    ∀ m, m ≤ levelCount config (config.max_levels - 1) →
      ClearInv O config m
        ((List.range m).foldl
          (fun s i => clearEnding s (generateCYOASceneId (config.max_levels - 1) i))
          st) := by
  intro m
  induction m with
  | zero => intro _; simpa using inv
  | succ m ih =>
    intro hm
    rw [List.range_succ, List.foldl_append, List.foldl_cons, List.foldl_nil]
    exact clearStep O hv (by omega) (ih (by omega))

/-- Under the cleared invariant, `repairScene` changes nothing: every stored
decision already resolves. -/
theorem repairScene_id (O : Oracles) {config : DiamondConfig} (hv : config.Valid)
    {st : StoryGenerationState}
    (inv : ClearInv O config (levelCount config (config.max_levels - 1)) st)
    (key : String) (hkey : key ∈ scenesKeys st.scenes) : repairScene st key = st := by
  have hL : 3 ≤ config.max_levels := hv.1
  have hL6 : config.max_levels ≤ 6 := hv.2.1
  have hnodup : (scenesKeys st.scenes).Nodup := by
    rw [inv.keys_eq]
    exact runKeys_nodup config hv (le_refl _)
  rw [inv.keys_eq, mem_runKeys] at hkey
  obtain ⟨ℓ, hℓ, hmem⟩ := hkey
  rw [mem_levelIds] at hmem
  obtain ⟨i, hi, rfl⟩ := hmem
  by_cases hlast : ℓ = config.max_levels - 1
  · subst hlast
    obtain ⟨sc, hget, hid, hlev, hclr, _⟩ := inv.scene_last i hi
    obtain ⟨hend, hdecs⟩ := hclr hi
    simp only [repairScene, hget, hdecs, List.map_nil]
    have hsc : { sc with decisions := ([] : List Decision) } = sc := by
      rw [← hdecs]
    rw [hsc]
    show { st with scenes := scenesInsert st.scenes _ sc } = st
    rw [scenesInsert_self_of_get hnodup hget]
  · have hℓ2 : ℓ < config.max_levels - 1 := by omega
    obtain ⟨sc, hget, hbase, hconn⟩ := inv.scene_nonlast ℓ hℓ2 i hi
    simp only [repairScene, hget]
    have hcnt1 := (levelCount_bounds config hv
      (show ℓ + 1 < config.max_levels by omega)).2
    have hmap : sc.decisions.map (fun decision =>
        if decision.leads_to = "" ∨ scenesGet st.scenes decision.leads_to = none then
          if 0 < (st.scenes_by_level.getD (sc.level + 1) []).length then
            { decision with leads_to := (st.scenes_by_level.getD (sc.level + 1) []).getD 0 "" }
          else decision
        else decision) = sc.decisions := by
      have hcong : ∀ d ∈ sc.decisions, (fun decision =>
          if decision.leads_to = "" ∨ scenesGet st.scenes decision.leads_to = none then
            if 0 < (st.scenes_by_level.getD (sc.level + 1) []).length then
              { decision with leads_to := (st.scenes_by_level.getD (sc.level + 1) []).getD 0 "" }
            else decision
          else decision) d = d := by
        intro d hd
        have hmem2 := hconn d hd
        rw [mem_levelIds] at hmem2
        obtain ⟨i2, hi2, heq⟩ := hmem2
        have hne : d.leads_to ≠ "" := by
          rw [heq]
          exact sceneId_ne_empty (by omega) (by omega)
        have hsome : scenesGet st.scenes d.leads_to ≠ none := by
          rw [heq]
          rcases Nat.lt_or_ge (ℓ + 1) (config.max_levels - 1) with hc | hc
          · obtain ⟨t, hgt, -⟩ := inv.scene_nonlast (ℓ + 1) hc i2 hi2
            rw [hgt]
            exact Option.noConfusion
          · have : ℓ + 1 = config.max_levels - 1 := by omega
            rw [this] at hi2 ⊢
            obtain ⟨t, hgt, -⟩ := inv.scene_last i2 hi2
            rw [hgt]
            exact Option.noConfusion
        show (if d.leads_to = "" ∨ scenesGet st.scenes d.leads_to = none then
            if 0 < (st.scenes_by_level.getD (sc.level + 1) []).length then
              { d with leads_to := (st.scenes_by_level.getD (sc.level + 1) []).getD 0 "" }
            else d
          else d) = d
        rw [if_neg (not_or.mpr ⟨hne, hsome⟩)]
      calc sc.decisions.map _ = sc.decisions.map id := List.map_congr_left hcong
        _ = sc.decisions := List.map_id _
    rw [hmap]
    show { st with scenes := scenesInsert st.scenes _ sc } = st
    rw [scenesInsert_self_of_get hnodup hget]

/-- `validatePaths` turns the completed run invariant into the final
structural facts. -/
theorem validate_finalInv (O : Oracles) {config : DiamondConfig} (hv : config.Valid)
    {st : StoryGenerationState} (inv : RunInv O config config.max_levels st) :
    FinalInv O config (validatePaths st) := by
  have hL : 3 ≤ config.max_levels := hv.1
  have hlastq : st.scenes_by_level.get? (config.max_levels - 1) =
      some (levelIds config (config.max_levels - 1)) := inv.sbl_done _ (by omega)
  have hlastD : st.scenes_by_level.getD (st.diamond_config.max_levels - 1) [] =
      levelIds config (config.max_levels - 1) := by
    rw [inv.cfg_eq]
    exact getD_of_get? hlastq
  have hred : validatePaths st =
      (scenesKeys ((levelIds config (config.max_levels - 1)).foldl clearEnding st).scenes).foldl
        repairScene
        ((levelIds config (config.max_levels - 1)).foldl clearEnding st) := by
    show (scenesKeys ((st.scenes_by_level.getD (st.diamond_config.max_levels - 1) []).foldl
        clearEnding st).scenes).foldl repairScene
        ((st.scenes_by_level.getD (st.diamond_config.max_levels - 1) []).foldl
          clearEnding st) = _
    rw [hlastD]
  have hfold : (levelIds config (config.max_levels - 1)).foldl clearEnding st =
      (List.range (levelCount config (config.max_levels - 1))).foldl
        (fun s i => clearEnding s (generateCYOASceneId (config.max_levels - 1) i)) st := by
    show List.foldl clearEnding st
        (List.map (generateCYOASceneId (config.max_levels - 1))
          (List.range (levelCount config (config.max_levels - 1)))) = _
    rw [List.foldl_map]
  have hclear := clearLoop O hv (runInv_to_clear O hv inv)
    (levelCount config (config.max_levels - 1)) (le_refl _)
  rw [hred, hfold]
  rw [foldl_id repairScene _ _ (fun key hkey => repairScene_id O hv hclear key hkey)]
  refine ⟨hclear.keys_eq, ?_, ?_⟩
  · rw [hclear.keys_eq]
    exact runKeys_nodup config hv (le_refl _)
  · intro ℓ hℓ i hi
    by_cases hlast : ℓ = config.max_levels - 1
    · subst hlast
      obtain ⟨sc, hget, hid, hlev, hclr, -⟩ := hclear.scene_last i hi
      obtain ⟨hend, hdecs⟩ := hclr hi
      refine ⟨sc, hget, hid, hlev, ?_, fun _ => hdecs, fun hc => absurd rfl hc⟩
      exact ⟨fun _ => rfl, fun _ => hend⟩
    · obtain ⟨sc, hget, hbase, hconn⟩ := hclear.scene_nonlast ℓ (by omega) i hi
      exact ⟨sc, hget, hbase.id_eq, hbase.level_eq, hbase.ending_iff,
        fun hc => absurd hc hlast, fun _ => ⟨hconn, hbase.dec_len⟩⟩

/-- Master theorem: the final state of every completed run from a valid
configuration satisfies the structural graph facts. -/
theorem run_final (O : Oracles) (mode : GenerationMode) (config : DiamondConfig)
    (hv : config.Valid) :
    FinalInv O config (run O mode (createStoryGenerationState config)) := by
  rw [run_eq]
  exact validate_finalInv O hv (runFold_runInv O mode config hv)

theorem scenesGet_of_mem {m : List (String × Scene)}
    (hnd : (scenesKeys m).Nodup) {kv : String × Scene} (hkv : kv ∈ m) :
    scenesGet m kv.1 = some kv.2 := by
  induction m with
  | nil => cases hkv
  | cons a l ih =>
    rw [scenesKeys_cons] at hnd
    rcases List.mem_cons.mp hkv with heq | hmem
    · subst heq
      rw [scenesGet_cons, if_pos rfl]
    · have hne : a.1 ≠ kv.1 := by
        intro hc
        exact (List.nodup_cons.mp hnd).1
          (hc ▸ List.mem_map_of_mem (fun p => p.1) hmem)
      rw [scenesGet_cons, if_neg hne]
      exact ih (List.nodup_cons.mp hnd).2 hmem

theorem mem_scenesKeys_of_mem {m : List (String × Scene)} {kv : String × Scene}
    (hkv : kv ∈ m) : kv.1 ∈ scenesKeys m :=
  List.mem_map_of_mem (fun p => p.1) hkv

/-- C2: after a completed run (any collaborator replies, any randomness, valid
config), every decision of every stored scene leads to an existing scene of
the level immediately below the decision owner's level. -/
theorem C2_leads_to_next_level (O : Oracles) (mode : GenerationMode)
    (config : DiamondConfig) (hv : config.Valid) :
    ∀ kv ∈ (run O mode (createStoryGenerationState config)).scenes,
      ∀ d ∈ kv.2.decisions,
        ∃ tgt, scenesGet (run O mode (createStoryGenerationState config)).scenes
            d.leads_to = some tgt ∧ tgt.level = kv.2.level + 1 := by
  intro kv hkv d hd
  have hfin := run_final O mode config hv
  have hkey : kv.1 ∈ runKeys config config.max_levels := by
    rw [← hfin.keys_eq]
    exact mem_scenesKeys_of_mem hkv
  rw [mem_runKeys] at hkey
  obtain ⟨ℓ, hℓ, hmem⟩ := hkey
  rw [mem_levelIds] at hmem
  obtain ⟨i, hi, hid⟩ := hmem
  obtain ⟨sc, hget, hscid, hsclev, hend, hlastdec, hnonlast⟩ := hfin.scene_at ℓ hℓ i hi
  have hget2 : scenesGet (run O mode (createStoryGenerationState config)).scenes kv.1 =
      some kv.2 := scenesGet_of_mem hfin.keys_nodup hkv
  rw [hid, hget] at hget2
  have hsc : sc = kv.2 := Option.some_inj.mp hget2
  subst hsc
  by_cases hlast : ℓ = config.max_levels - 1
  · rw [hlastdec hlast] at hd
    cases hd
  · obtain ⟨hconn, -⟩ := hnonlast hlast
    have hmem2 := hconn d hd
    rw [mem_levelIds] at hmem2
    obtain ⟨i2, hi2, heq⟩ := hmem2
    have hℓ1 : ℓ + 1 < config.max_levels := by
      have := hv.1
      omega
    obtain ⟨tgt, hgt, -, htlev, -⟩ := hfin.scene_at (ℓ + 1) hℓ1 i2 hi2
    refine ⟨tgt, ?_, ?_⟩
    · rw [heq]
      exact hgt
    · rw [htlev, hsclev]

theorem C2_leads_to_next_level_witness :
    DiamondConfig.Valid ⟨3, 2, 2, 3, 2⟩ ∧
    ∀ kv ∈ (run oracleOneChoice GenerationMode.draft
        (createStoryGenerationState ⟨3, 2, 2, 3, 2⟩)).scenes,
      ∀ d ∈ kv.2.decisions,
        ∃ tgt, scenesGet (run oracleOneChoice GenerationMode.draft
            (createStoryGenerationState ⟨3, 2, 2, 3, 2⟩)).scenes d.leads_to = some tgt ∧
          tgt.level = kv.2.level + 1 :=
  ⟨by decide,
   C2_leads_to_next_level oracleOneChoice GenerationMode.draft ⟨3, 2, 2, 3, 2⟩ (by decide)⟩

/-- C3: after a completed run from a valid config, every scene at level
`max_levels - 1` is an ending with no decisions, and no scene at any other
level is an ending. -/
theorem C3_endings_exactly_last_level (O : Oracles) (mode : GenerationMode)
    (config : DiamondConfig) (hv : config.Valid) :
    ∀ kv ∈ (run O mode (createStoryGenerationState config)).scenes,
      (kv.2.level = config.max_levels - 1 →
        kv.2.is_ending = true ∧ kv.2.decisions = []) ∧
      (kv.2.level ≠ config.max_levels - 1 → kv.2.is_ending = false) := by
  intro kv hkv
  have hfin := run_final O mode config hv
  have hkey : kv.1 ∈ runKeys config config.max_levels := by
    rw [← hfin.keys_eq]
    exact mem_scenesKeys_of_mem hkv
  rw [mem_runKeys] at hkey
  obtain ⟨ℓ, hℓ, hmem⟩ := hkey
  rw [mem_levelIds] at hmem
  obtain ⟨i, hi, hid⟩ := hmem
  obtain ⟨sc, hget, hscid, hsclev, hend, hlastdec, hnonlast⟩ := hfin.scene_at ℓ hℓ i hi
  have hget2 : scenesGet (run O mode (createStoryGenerationState config)).scenes kv.1 =
      some kv.2 := scenesGet_of_mem hfin.keys_nodup hkv
  rw [hid, hget] at hget2
  have hsc : sc = kv.2 := Option.some_inj.mp hget2
  subst hsc
  rw [hsclev]
  constructor
  · intro hlast
    exact ⟨hend.mpr hlast, hlastdec hlast⟩
  · intro hlast
    cases hb : kv.2.is_ending with
    | false => rfl
    | true => exact absurd (hend.mp hb) hlast

theorem C3_endings_exactly_last_level_witness :
    DiamondConfig.Valid ⟨3, 2, 2, 3, 2⟩ ∧
    ∀ kv ∈ (run oracleOneChoice GenerationMode.draft
        (createStoryGenerationState ⟨3, 2, 2, 3, 2⟩)).scenes,
      (kv.2.level = (⟨3, 2, 2, 3, 2⟩ : DiamondConfig).max_levels - 1 →
        kv.2.is_ending = true ∧ kv.2.decisions = []) ∧
      (kv.2.level ≠ (⟨3, 2, 2, 3, 2⟩ : DiamondConfig).max_levels - 1 →
        kv.2.is_ending = false) :=
  ⟨by decide,
   C3_endings_exactly_last_level oracleOneChoice GenerationMode.draft ⟨3, 2, 2, 3, 2⟩
     (by decide)⟩

theorem scenesGet_mem {m : List (String × Scene)} {k : String} {v : Scene}
    (h : scenesGet m k = some v) : (k, v) ∈ m := by
  simp only [scenesGet, Option.map_eq_some'] at h
  obtain ⟨kv, hfind, hv⟩ := h
  have hmem := List.mem_of_find?_eq_some hfind
  obtain ⟨k1, v1⟩ := kv
  have hk : k1 = k := by simpa using List.find?_some hfind
  have hv2 : v1 = v := hv
  subst hk
  subst hv2
  exact hmem

/-- C4 counterexample: with a generation collaborator that always replies with
zero choices, the run completes with non-ending scenes that have no
decisions; `validatePaths` only logs a warning for them. -/
theorem C4_counterexample :
    ¬ (∀ kv ∈ (run oracleNoChoices GenerationMode.draft
        (createStoryGenerationState ⟨3, 2, 2, 3, 2⟩)).scenes,
      kv.2.is_ending = false → kv.2.decisions.length ≠ 0) := by decide

/-- C4 (amended): after a completed run from a valid config, every non-ending
scene has at least one decision, PROVIDED every generation reply contains at
least one choice; the path validator itself does not repair zero-decision
non-ending scenes (it only warns), so the property is not unconditional. -/
theorem C4_nonending_has_decisions (O : Oracles) (mode : GenerationMode)
    (config : DiamondConfig) (hv : config.Valid)
    (hgen : ∀ sid a, (O.gen sid a).decisions.length ≠ 0) :
    ∀ kv ∈ (run O mode (createStoryGenerationState config)).scenes,
      kv.2.is_ending = false → kv.2.decisions.length ≠ 0 := by
  intro kv hkv hnotend
  have hfin := run_final O mode config hv
  have hkey : kv.1 ∈ runKeys config config.max_levels := by
    rw [← hfin.keys_eq]
    exact mem_scenesKeys_of_mem hkv
  rw [mem_runKeys] at hkey
  obtain ⟨ℓ, hℓ, hmem⟩ := hkey
  rw [mem_levelIds] at hmem
  obtain ⟨i, hi, hid⟩ := hmem
  obtain ⟨sc, hget, hscid, hsclev, hend, hlastdec, hnonlast⟩ := hfin.scene_at ℓ hℓ i hi
  have hget2 : scenesGet (run O mode (createStoryGenerationState config)).scenes kv.1 =
      some kv.2 := scenesGet_of_mem hfin.keys_nodup hkv
  rw [hid, hget] at hget2
  have hsc : sc = kv.2 := Option.some_inj.mp hget2
  subst hsc
  by_cases hlast : ℓ = config.max_levels - 1
  · rw [hend.mpr hlast] at hnotend
    cases hnotend
  · obtain ⟨-, a, -, -, hlen⟩ := hnonlast hlast
    rw [hlen]
    exact hgen _ a

theorem C4_nonending_has_decisions_witness :
    DiamondConfig.Valid ⟨3, 2, 2, 3, 2⟩ ∧
    (∀ sid a, (oracleOneChoice.gen sid a).decisions.length ≠ 0) ∧
    ∀ kv ∈ (run oracleOneChoice GenerationMode.draft
        (createStoryGenerationState ⟨3, 2, 2, 3, 2⟩)).scenes,
      kv.2.is_ending = false → kv.2.decisions.length ≠ 0 :=
  ⟨by decide, fun _ _ => by simp [oracleOneChoice],
   C4_nonending_has_decisions oracleOneChoice GenerationMode.draft ⟨3, 2, 2, 3, 2⟩
     (by decide) (fun _ _ => by simp [oracleOneChoice])⟩

/-- C5 counterexample: a generation reply with five schema-conforming choices
is stored intact — `GeneratedSceneSchema` places no upper bound on the
decision list and the orchestrator never truncates it, so a stored scene can
have five decisions. -/
theorem C5_counterexample :
    ¬ (∀ kv ∈ (run oracleFiveChoices GenerationMode.draft
        (createStoryGenerationState ⟨3, 2, 2, 3, 2⟩)).scenes,
      kv.2.decisions.length ≤ 4) := by decide

/-- C5 (amended): every stored scene's decision list is at most 4 long ONLY
under the extra hypothesis that every generation reply carries at most 4
choices; the code itself enforces no cap (contrary to `SceneSchema`'s
`.max(4)`), so the unconditional claim is false. -/
theorem C5_decisions_cap (O : Oracles) (mode : GenerationMode)
    (config : DiamondConfig) (hv : config.Valid)
    (hgen : ∀ sid a, (O.gen sid a).decisions.length ≤ 4) :
    ∀ kv ∈ (run O mode (createStoryGenerationState config)).scenes,
      kv.2.decisions.length ≤ 4 := by
  intro kv hkv
  have hfin := run_final O mode config hv
  have hkey : kv.1 ∈ runKeys config config.max_levels := by
    rw [← hfin.keys_eq]
    exact mem_scenesKeys_of_mem hkv
  rw [mem_runKeys] at hkey
  obtain ⟨ℓ, hℓ, hmem⟩ := hkey
  rw [mem_levelIds] at hmem
  obtain ⟨i, hi, hid⟩ := hmem
  obtain ⟨sc, hget, hscid, hsclev, hend, hlastdec, hnonlast⟩ := hfin.scene_at ℓ hℓ i hi
  have hget2 : scenesGet (run O mode (createStoryGenerationState config)).scenes kv.1 =
      some kv.2 := scenesGet_of_mem hfin.keys_nodup hkv
  rw [hid, hget] at hget2
  have hsc : sc = kv.2 := Option.some_inj.mp hget2
  subst hsc
  by_cases hlast : ℓ = config.max_levels - 1
  · rw [hlastdec hlast]
    simp
  · obtain ⟨-, a, -, -, hlen⟩ := hnonlast hlast
    rw [hlen]
    exact hgen _ a

theorem C5_decisions_cap_witness :
    DiamondConfig.Valid ⟨3, 2, 2, 3, 2⟩ ∧
    (∀ sid a, (oracleOneChoice.gen sid a).decisions.length ≤ 4) ∧
    ∀ kv ∈ (run oracleOneChoice GenerationMode.draft
        (createStoryGenerationState ⟨3, 2, 2, 3, 2⟩)).scenes,
      kv.2.decisions.length ≤ 4 :=
  ⟨by decide, fun _ _ => by simp [oracleOneChoice],
   C5_decisions_cap oracleOneChoice GenerationMode.draft ⟨3, 2, 2, 3, 2⟩
     (by decide) (fun _ _ => by simp [oracleOneChoice])⟩

/-- C9: `validatePaths` is idempotent on states already satisfying the
structural invariants — duplicate-free scene-map keys (automatic for a JS
object), every listed last-level scene already an ending with no decisions,
and every decision's `leads_to` a non-empty id of an existing scene. -/
theorem C9_validatePaths_idempotent (st : StoryGenerationState)
    (hkeys : (scenesKeys st.scenes).Nodup)
    (hend : ∀ sid ∈ st.scenes_by_level.getD (st.diamond_config.max_levels - 1) [],
      ∀ sc, scenesGet st.scenes sid = some sc →
        sc.is_ending = true ∧ sc.decisions = [])
    (hres : ∀ kv ∈ st.scenes, ∀ d ∈ kv.2.decisions,
      d.leads_to ≠ "" ∧ scenesGet st.scenes d.leads_to ≠ none) :
    validatePaths st = st := by
  have hclear : ∀ sid ∈ st.scenes_by_level.getD (st.diamond_config.max_levels - 1) [],
      clearEnding st sid = st := by
    intro sid hsid
    cases hget : scenesGet st.scenes sid with
    | none => simp [clearEnding, hget]
    | some sc =>
      obtain ⟨h1, h2⟩ := hend sid hsid sc hget
      simp only [clearEnding, hget]
      have hsc : { sc with is_ending := true, decisions := ([] : List Decision) } = sc := by
        rw [← h1, ← h2]
      rw [hsc, scenesInsert_self_of_get hkeys hget]
  have hrepair : ∀ key ∈ scenesKeys st.scenes, repairScene st key = st := by
    intro key hkey
    cases hget : scenesGet st.scenes key with
    | none => simp [repairScene, hget]
    | some scene =>
      have hmem := scenesGet_mem hget
      simp only [repairScene, hget]
      have hmap : scene.decisions.map (fun decision =>
          if decision.leads_to = "" ∨ scenesGet st.scenes decision.leads_to = none then
            if 0 < (st.scenes_by_level.getD (scene.level + 1) []).length then
              { decision with
                  leads_to := (st.scenes_by_level.getD (scene.level + 1) []).getD 0 "" }
            else decision
          else decision) = scene.decisions := by
        have hcong : ∀ d ∈ scene.decisions, (fun decision =>
            if decision.leads_to = "" ∨ scenesGet st.scenes decision.leads_to = none then
              if 0 < (st.scenes_by_level.getD (scene.level + 1) []).length then
                { decision with
                    leads_to := (st.scenes_by_level.getD (scene.level + 1) []).getD 0 "" }
              else decision
            else decision) d = d := by
          intro d hd
          obtain ⟨hne, hsome⟩ := hres (key, scene) hmem d hd
          show (if d.leads_to = "" ∨ scenesGet st.scenes d.leads_to = none then
              if 0 < (st.scenes_by_level.getD (scene.level + 1) []).length then
                { d with
                    leads_to := (st.scenes_by_level.getD (scene.level + 1) []).getD 0 "" }
              else d
            else d) = d
          rw [if_neg (not_or.mpr ⟨hne, hsome⟩)]
        calc scene.decisions.map _ = scene.decisions.map id := List.map_congr_left hcong
          _ = scene.decisions := List.map_id _
      rw [hmap]
      show { st with scenes := scenesInsert st.scenes _ scene } = st
      rw [scenesInsert_self_of_get hkeys hget]
  show (scenesKeys ((st.scenes_by_level.getD (st.diamond_config.max_levels - 1) []).foldl
      clearEnding st).scenes).foldl repairScene
      ((st.scenes_by_level.getD (st.diamond_config.max_levels - 1) []).foldl
        clearEnding st) = st
  rw [foldl_id clearEnding st _ hclear]
  exact foldl_id repairScene st _ hrepair

theorem C9_validatePaths_idempotent_witness :
    validatePaths (createStoryGenerationState ⟨3, 2, 2, 3, 2⟩) =
      createStoryGenerationState ⟨3, 2, 2, 3, 2⟩ :=
  C9_validatePaths_idempotent _ (by decide)
    (fun sid _ sc hget => by simp [createStoryGenerationState, scenesGet] at hget)
    (fun kv hkv => by simp [createStoryGenerationState] at hkv)

end CYOA
